import Mathlib

/-!
# simple-sysmon: a shallow embedding of `src/system_monitor.c`

The development models the sampling and delta-computation code of the monitor:
`read_cpu_stat`, `compute_cpu_usage`, `read_meminfo`, `read_disk_usage`,
`read_net_totals`, `read_processes`, `cmp_procs`, `print_snapshot` and the network
delta of the interactive loop in `main`.

Conventions.
* `unsigned long long` values are natural numbers, every operation reduced modulo `2 ^ 64`.
* `long` and `int` values are integers, wrapped to 64 and 32 bits (two's complement).
* A `double` is modelled by its value, a rational number. Every conversion to
  `double` and every `double` operation rounds its exact result to 53 significant
  bits, to the nearest value and on a tie to the even one (`to_double`). The exponent
  range is not modelled: the values computed here are 0 or lie between 2^-58 and 2^71
  (`pct_expr_range`). `none` stands for a non-finite value, which only a division by
  zero can produce here.
* C strings and file contents are lists of characters; a file that cannot be opened
  is `none`.
-/

namespace SimpleSysmon

/-! ## Machine arithmetic -/

/-- Addition of two `unsigned long long` values. -/
def ull_add (a b : Nat) : Nat := (a + b) % 2 ^ 64

/-- Subtraction of two `unsigned long long` values (wraps below zero). -/
def ull_sub (a b : Nat) : Nat := (a % 2 ^ 64 + (2 ^ 64 - b % 2 ^ 64)) % 2 ^ 64

/-- Multiplication of two `unsigned long long` values. -/
def ull_mul (a b : Nat) : Nat := (a * b) % 2 ^ 64

/-- Reduction of an integer to the range of `long` (64-bit two's complement). -/
def long_wrap (z : Int) : Int := (z + 2 ^ 63) % 2 ^ 64 - 2 ^ 63

/-- Reduction of an integer to the range of `int` (32-bit two's complement). -/
def int_wrap (z : Int) : Int := (z + 2 ^ 31) % 2 ^ 32 - 2 ^ 31

/-! ## Double arithmetic -/

/-- The integer nearest to `x`; of two equally near integers the even one. -/
def round_half_even (x : ℚ) : Int :=
  if x - (Int.floor x : ℚ) < 1 / 2 then Int.floor x
  else if 1 / 2 < x - (Int.floor x : ℚ) then Int.floor x + 1
  else if Int.floor x % 2 = 0 then Int.floor x else Int.floor x + 1

/-- The unit in the last place of the doubles around a positive `q`: `2 ^ (e - 52)`
where `2 ^ e ≤ q < 2 ^ (e + 1)`. -/
def ulp (q : ℚ) : ℚ := (2 : ℚ) ^ (Int.log 2 q - 52)

/-- A positive value rounded to 53 significant bits. -/
def round_pos (q : ℚ) : ℚ := (round_half_even (q / ulp q) : ℚ) * ulp q

/-- The double nearest to `q` (round to nearest, ties to even). -/
def to_double (q : ℚ) : ℚ :=
  if 0 < q then round_pos q else if q < 0 then -round_pos (-q) else 0

/-- Multiplication of two `double` values. -/
def fmul (a b : ℚ) : ℚ := to_double (a * b)

/-- Division of two `double` values; `none` when the divisor is zero. -/
def fdiv (a b : ℚ) : Option ℚ := if b = 0 then none else some (to_double (a / b))

/-! ## C library -/

/-- The terminating byte of a C string. -/
def NUL : Char := Char.ofNat 0

/-- The C locale `isspace`. -/
def isspace (c : Char) : Bool :=
  c = ' ' || c = '\t' || c = '\n' || c = Char.ofNat 11 || c = Char.ofNat 12 || c = '\r'

/-- The C locale `isdigit`. -/
def isdigit (c : Char) : Bool := decide ('0' ≤ c) && decide (c ≤ '9')

/-- The string a buffer holds: its bytes up to the first NUL. -/
def c_str (buf : List Char) : List Char := buf.takeWhile (fun c => c != NUL)

/-- The bytes one `fgets` call consumes: at most `n`, stopping after a newline.
Returns the bytes read and the rest of the stream. -/
def fgets_take : Nat → List Char → List Char × List Char
  | 0, s => ([], s)
  | _ + 1, [] => ([], [])
  | n + 1, c :: cs =>
    if c = '\n' then ([c], cs)
    else ((c :: (fgets_take n cs).1), (fgets_take n cs).2)

/-- The call `fgets(buf, size, f)`: `none` at end of file, otherwise the string left
in the buffer and the rest of the stream. -/
def fgets (size : Nat) (stream : List Char) : Option (List Char × List Char) :=
  match stream with
  | [] => none
  | _ :: _ => some (c_str (fgets_take (size - 1) stream).1, (fgets_take (size - 1) stream).2)

/-- The buffers produced by calling `fgets` until it returns NULL, at most `fuel` times. -/
def fgets_loop (size : Nat) : Nat → List Char → List (List Char)
  | 0, _ => []
  | fuel + 1, stream =>
    match fgets size stream with
    | none => []
    | some (buf, rest) => buf :: fgets_loop size fuel rest

/-- All buffers `while (fgets(buf, size, f))` sees. Every call consumes a byte, so the
length of the stream bounds the number of calls. -/
def fgets_all (size : Nat) (stream : List Char) : List (List Char) :=
  fgets_loop size stream.length stream

/-- Index of the first occurrence of `c` in `s` (`strchr`). -/
def strchr (s : List Char) (c : Char) : Option Nat :=
  match s with
  | [] => none
  | x :: xs => if x = c then some 0 else (strchr xs c).map (fun i => i + 1)

/-- Index of the last occurrence of `c` in `s` (`strrchr`). -/
def strrchr (s : List Char) (c : Char) : Option Nat :=
  match s with
  | [] => none
  | x :: xs =>
    match strrchr xs c with
    | some i => some (i + 1)
    | none => if x = c then some 0 else none

/-- Scanner behind `strtok`: `cur` is the token in progress, reversed. -/
def strtok_aux (delim : Char → Bool) : List Char → List Char → List (List Char)
  | cur, [] => if cur = [] then [] else [cur.reverse]
  | cur, c :: cs =>
    if delim c then
      (if cur = [] then strtok_aux delim [] cs else cur.reverse :: strtok_aux delim [] cs)
    else strtok_aux delim (c :: cur) cs

/-- The successive tokens `strtok(s, delim)`, `strtok(NULL, delim)`, ... return. -/
def strtok_all (delim : Char → Bool) (s : List Char) : List (List Char) :=
  strtok_aux delim [] s

/-- Value of a decimal digit. -/
def digit_val (c : Char) : Nat := c.toNat - 48

/-- Value of a run of decimal digits, most significant first. -/
def digits_val (ds : List Char) : Nat := ds.foldl (fun a c => a * 10 + digit_val c) 0

/-- Drop an optional sign. -/
def skip_sign (s : List Char) : List Char :=
  match s with
  | '-' :: r => r
  | '+' :: r => r
  | _ => s

/-- Whether the text starts with a minus sign. -/
def has_minus (s : List Char) : Bool :=
  match s with
  | '-' :: _ => true
  | _ => false

/-- Conversion of a digit run to `unsigned long long`: saturates at `ULLONG_MAX`,
and a minus sign negates modulo `2 ^ 64`. -/
def ull_of_digits (neg : Bool) (ds : List Char) : Nat :=
  if 2 ^ 64 ≤ digits_val ds then 2 ^ 64 - 1
  else if neg then ull_sub 0 (digits_val ds) else digits_val ds

/-- Conversion of a digit run to `long`: saturates at `LONG_MIN` and `LONG_MAX`. -/
def long_of_digits (neg : Bool) (ds : List Char) : Int :=
  if neg then (if 2 ^ 63 ≤ digits_val ds then -(2 ^ 63) else -(digits_val ds : Int))
  else (if 2 ^ 63 ≤ digits_val ds then 2 ^ 63 - 1 else (digits_val ds : Int))

/-- The call `strtoull(s, NULL, 10)`. -/
def strtoull (s : List Char) : Nat :=
  ull_of_digits (has_minus (s.dropWhile isspace))
    ((skip_sign (s.dropWhile isspace)).takeWhile isdigit)

/-- The call `atol(s)`. -/
def atol (s : List Char) : Int :=
  long_of_digits (has_minus (s.dropWhile isspace))
    ((skip_sign (s.dropWhile isspace)).takeWhile isdigit)

/-- The call `atoi(s)`: `strtol` narrowed to `int`. -/
def atoi (s : List Char) : Int := int_wrap (atol s)

/-- The `sscanf` directive `%llu`: skips white space, then needs at least one digit
after an optional sign. Returns the value and the unread input. -/
def scan_llu (s : List Char) : Option (Nat × List Char) :=
  if (skip_sign (s.dropWhile isspace)).takeWhile isdigit = [] then none
  else some (ull_of_digits (has_minus (s.dropWhile isspace))
      ((skip_sign (s.dropWhile isspace)).takeWhile isdigit),
    (skip_sign (s.dropWhile isspace)).dropWhile isdigit)

/-- The `sscanf` directive `%<width>s`: skips white space, then reads up to `width`
characters that are not white space; fails when there is none. -/
def scan_s (width : Nat) (s : List Char) : Option (List Char × List Char) :=
  if ((s.dropWhile isspace).takeWhile (fun c => !isspace c)).take width = [] then none
  else some (((s.dropWhile isspace).takeWhile (fun c => !isspace c)).take width,
    (s.dropWhile isspace).drop
      (((s.dropWhile isspace).takeWhile (fun c => !isspace c)).take width).length)

/-- Up to `k` consecutive `%llu` directives separated by white space: the values
converted before the first failure. -/
def scan_llu_seq : Nat → List Char → List Nat
  | 0, _ => []
  | k + 1, s =>
    match scan_llu s with
    | none => []
    | some (v, rest) => v :: scan_llu_seq k rest

/-- Literal characters of an `sscanf` format: each must equal the next input character. -/
def scan_lit : List Char → List Char → Option (List Char)
  | [], s => some s
  | _ :: _, [] => none
  | l :: ls, c :: cs => if l = c then scan_lit ls cs else none

/-- The call `sscanf(line, "<label> %llu kB", &v) == 1`, returning the value stored. -/
def sscanf_label_llu (label line : List Char) : Option Nat :=
  match scan_lit label line with
  | none => none
  | some rest => (scan_llu rest).map Prod.fst

/-! ## Data -/

/-- The `cpu_stat_t` of the source: eight cumulative counters. -/
structure cpu_stat_t where
  user : Nat
  nice : Nat
  system : Nat
  idle : Nat
  iowait : Nat
  irq : Nat
  softirq : Nat
  steal : Nat
deriving DecidableEq

/-- The `proc_info_t` of the source. -/
structure proc_info_t where
  pid : Int
  rss_kb : Int
  cmd : List Char
deriving DecidableEq

/-- The fields of `struct statvfs` the monitor reads. -/
structure statvfs_t where
  f_frsize : Nat
  f_blocks : Nat
  f_bavail : Nat
deriving DecidableEq

def REFRESH_SECS : Nat := 1
def MAX_PROCS : Nat := 64
def CMDLINE_LEN : Nat := 256

/-! ## Readers -/

/-- Model of `read_cpu_stat`: `src` is the content of `/proc/stat` (`none` when it
cannot be opened), `s` the structure passed in. Returns the status and the structure
afterwards; `sscanf` stores the counters converted before its first failure and the
result of `sscanf` is not inspected. -/
def read_cpu_stat (src : Option (List Char)) (s : cpu_stat_t) : Int × cpu_stat_t :=
  match src with
  | none => (-1, s)
  | some stream =>
    match fgets 512 stream with
    | none => (-1, s)
    | some (buf, _) =>
      match scan_s 15 buf with
      | none => (0, s)
      | some (_, rest) =>
        (0, { user := (scan_llu_seq 10 rest).getD 0 s.user
              nice := (scan_llu_seq 10 rest).getD 1 s.nice
              system := (scan_llu_seq 10 rest).getD 2 s.system
              idle := (scan_llu_seq 10 rest).getD 3 s.idle
              iowait := (scan_llu_seq 10 rest).getD 4 s.iowait
              irq := (scan_llu_seq 10 rest).getD 5 s.irq
              softirq := (scan_llu_seq 10 rest).getD 6 s.softirq
              steal := (scan_llu_seq 10 rest).getD 7 s.steal })

/-- Model of `compute_cpu_usage`. -/
def compute_cpu_usage (old cur : cpu_stat_t) : Option ℚ :=
  let old_idle := ull_add old.idle old.iowait
  let cur_idle := ull_add cur.idle cur.iowait
  let old_non_idle := ull_add (ull_add (ull_add (ull_add (ull_add
    old.user old.nice) old.system) old.irq) old.softirq) old.steal
  let cur_non_idle := ull_add (ull_add (ull_add (ull_add (ull_add
    cur.user cur.nice) cur.system) cur.irq) cur.softirq) cur.steal
  let old_total := ull_add old_idle old_non_idle
  let cur_total := ull_add cur_idle cur_non_idle
  let totald := ull_sub cur_total old_total
  let idled := ull_sub cur_idle old_idle
  if totald = 0 then some 0
  else fdiv (fmul (to_double ((ull_sub totald idled : Nat) : ℚ)) 100) (to_double (totald : ℚ))

def MemTotal_label : List Char := ['M', 'e', 'm', 'T', 'o', 't', 'a', 'l', ':']
def MemFree_label : List Char := ['M', 'e', 'm', 'F', 'r', 'e', 'e', ':']
def MemAvailable_label : List Char :=
  ['M', 'e', 'm', 'A', 'v', 'a', 'i', 'l', 'a', 'b', 'l', 'e', ':']

/-- One iteration of the `read_meminfo` loop on the triple (total, free, available). -/
def meminfo_line (acc : Nat × Nat × Nat) (line : List Char) : Nat × Nat × Nat :=
  match sscanf_label_llu MemTotal_label line with
  | some v => (v, acc.2.1, acc.2.2)
  | none =>
    match sscanf_label_llu MemFree_label line with
    | some v => (acc.1, v, acc.2.2)
    | none =>
      match sscanf_label_llu MemAvailable_label line with
      | some v => (acc.1, acc.2.1, v)
      | none => acc

/-- Model of `read_meminfo`: status and (total, free, available) afterwards; `init`
holds the values of the three out-parameters before the call. -/
def read_meminfo (src : Option (List Char)) (init : Nat × Nat × Nat) : Int × (Nat × Nat × Nat) :=
  match src with
  | none => (-1, init)
  | some stream => (0, (fgets_all 256 stream).foldl meminfo_line (0, 0, 0))

/-- Model of `read_disk_usage`: status and (total, used, available) in kilobytes;
`st` is the result of `statvfs("/")`, `none` when the call fails. -/
def read_disk_usage (st : Option statvfs_t) (init : Nat × Nat × Nat) : Int × (Nat × Nat × Nat) :=
  match st with
  | none => (-1, init)
  | some v =>
    let block_size := v.f_frsize
    let total := ull_mul v.f_blocks block_size / 1024
    let avail := ull_mul v.f_bavail block_size / 1024
    let used := ull_sub total avail
    (0, (total, used, avail))

/-- White space skipped while the interface name is copied. -/
def iface_blank (c : Char) : Bool := c = ' ' || c = '\t' || c = '\n'

/-- The loop copying the interface name: `p` runs over the text before the colon,
`room` is the space left in `iface`. -/
def extract_iface : Nat → List Char → List Char
  | 0, _ => []
  | _ + 1, [] => []
  | room + 1, c :: p =>
    if iface_blank c then extract_iface (room + 1) p else c :: extract_iface room p

def lo_name : List Char := ['l', 'o']

/-- One iteration of the `read_net_totals` loop on the pair (rx_bytes, tx_bytes). -/
def net_line (acc : Nat × Nat) (line : List Char) : Nat × Nat :=
  match strchr line ':' with
  | none => acc
  | some colon =>
    let iface := extract_iface 63 (line.take colon)
    let fields := ((strtok_all iface_blank (line.drop (colon + 1))).take 16).map strtoull
    let idx := fields.length
    let rbytes := if 9 ≤ idx then fields.getD 0 0 else 0
    let tbytes := if 9 ≤ idx then fields.getD 8 0 else 0
    if iface ≠ lo_name then (ull_add acc.1 rbytes, ull_add acc.2 tbytes) else acc

/-- Model of `read_net_totals`: status and (rx_bytes, tx_bytes) afterwards. -/
def read_net_totals (src : Option (List Char)) (init : Nat × Nat) : Int × (Nat × Nat) :=
  match src with
  | none => (-1, init)
  | some stream => (0, ((fgets_all 512 stream).drop 2).foldl net_line (0, 0))

/-- What `read_processes` sees of the system: the names `readdir` returns for `/proc`
(`none` when `opendir` fails), the three per-process files addressed by pid (`none`
when a file cannot be opened) and `sysconf(_SC_PAGESIZE)`. -/
structure proc_fs where
  entries : Option (List (List Char))
  cmdline : Int → Option (List Char)
  comm : Int → Option (List Char)
  stat : Int → Option (List Char)
  pagesize : Int

/-- The command text after reading `cmdline`: at most 255 bytes, each NUL replaced
by a blank; empty when the file is missing or empty. -/
def read_cmdline (f : Option (List Char)) : List Char :=
  match f with
  | none => []
  | some bytes => (bytes.take (CMDLINE_LEN - 1)).map (fun c => if c = NUL then ' ' else c)

/-- The fallback: first line of `comm` without its trailing newline. -/
def read_comm (f : Option (List Char)) : List Char :=
  match f with
  | none => []
  | some stream =>
    match fgets CMDLINE_LEN stream with
    | none => []
    | some (buf, _) => if buf.getLast? = some '\n' then buf.dropLast else buf

/-- The token loop of `read_processes`: `field` counts from 3 at the first token after
the parenthesis, the token reached with `field = 24` is converted by `atol`. -/
def rss_scan : Nat → List (List Char) → Int
  | _, [] => 0
  | field, tok :: rest =>
    if field ≤ 24 then (if field = 24 then atol tok else rss_scan (field + 1) rest) else 0

/-- The value `rss_pages` gets from the buffer holding the stat line. -/
def stat_line_rss_pages (buf : List Char) : Int :=
  match strrchr buf ')' with
  | none => 0
  | some rp => rss_scan 3 (strtok_all (fun c => c = ' ') (buf.drop (rp + 1)))

/-- The value `rss_pages` gets from the `stat` file (0 when nothing can be read). -/
def stat_rss_pages (f : Option (List Char)) : Int :=
  match f with
  | none => 0
  | some stream =>
    match fgets 1024 stream with
    | none => 0
    | some (buf, _) => stat_line_rss_pages buf

/-- The conversion `rss_pages * (sysconf(_SC_PAGESIZE) / 1024)` in `long` arithmetic. -/
def rss_kb_of_pages (rss_pages pagesize : Int) : Int :=
  long_wrap (rss_pages * Int.tdiv pagesize 1024)

/-- The body of the `read_processes` loop for one numeric directory entry. -/
def read_one_proc (fs : proc_fs) (d_name : List Char) : proc_info_t :=
  let pid := atoi d_name
  let cmd0 := read_cmdline (fs.cmdline pid)
  let cmd := if cmd0 = [] then read_comm (fs.comm pid) else cmd0
  let rss_pages := stat_rss_pages (fs.stat pid)
  { pid := pid
    rss_kb := rss_kb_of_pages rss_pages fs.pagesize
    cmd := cmd.take (CMDLINE_LEN - 1) }

/-- The `readdir` loop of `read_processes`; `idx` is the number of entries stored. -/
def read_processes_loop (fs : proc_fs) : List (List Char) → Nat → List proc_info_t
  | [], _ => []
  | ent :: ents, idx =>
    if idx < MAX_PROCS then
      (if isdigit (ent.headD NUL) then read_one_proc fs ent :: read_processes_loop fs ents (idx + 1)
       else read_processes_loop fs ents idx)
    else []

/-- Model of `read_processes`: status and the entries `procs[0 .. count-1]`; `init`
is what the caller had before the call. -/
def read_processes (fs : proc_fs) (init : List proc_info_t) : Int × List proc_info_t :=
  match fs.entries with
  | none => (-1, init)
  | some ents => (0, read_processes_loop fs ents 0)

/-! ## Ranking -/

/-- Model of `cmp_procs`: the `long` difference narrowed to the `int` returned. -/
def cmp_procs (A B : proc_info_t) : Int := int_wrap (long_wrap (B.rss_kb - A.rss_kb))

/-- Insertion of `x` into a list, before the first element `y` with `cmp x y ≤ 0`. -/
def qsort_insert {α : Type} (cmp : α → α → Int) (x : α) : List α → List α
  | [] => [x]
  | y :: ys => if cmp x y ≤ 0 then x :: y :: ys else y :: qsort_insert cmp x ys

/-- The C library `qsort`, modelled by a stable insertion sort that looks only at the
sign of the comparator. -/
def qsort {α : Type} (cmp : α → α → Int) : List α → List α
  | [] => []
  | x :: xs => qsort_insert cmp x (qsort cmp xs)

/-! ## The one-shot snapshot and the interactive loop -/

/-- Everything `print_snapshot` reads, in the order it reads it. -/
structure sys_env where
  proc_stat_1 : Option (List Char)
  proc_stat_2 : Option (List Char)
  meminfo : Option (List Char)
  root_statvfs : Option statvfs_t
  net_dev_1 : Option (List Char)
  net_dev_2 : Option (List Char)
  procfs : proc_fs

/-- The values `print_snapshot` prints. -/
structure snapshot_t where
  cpu_pct : Option ℚ
  mem_pct : Option ℚ
  mem_used_mb : Nat
  mem_total_mb : Nat
  disk_pct : Option ℚ
  disk_used_mb : Nat
  disk_total_mb : Nat
  drx : Nat
  dtx : Nat
  rows : List proc_info_t

def cpu_stat_zero : cpu_stat_t := ⟨0, 0, 0, 0, 0, 0, 0, 0⟩

/-- The expression `(total == 0) ? 0 : (double)used * 100.0 / total` of `print_snapshot`. -/
def usage_pct (used total : Nat) : Option ℚ :=
  if total = 0 then some 0 else fdiv (fmul (to_double (used : ℚ)) 100) (to_double (total : ℚ))

/-- The memory figures of `print_snapshot`: `mem_used` and `mem_pct`. -/
def snapshot_mem (mem_total mem_avail : Nat) : Nat × Option ℚ :=
  (ull_sub mem_total mem_avail, usage_pct (ull_sub mem_total mem_avail) mem_total)

/-- The network delta of `print_snapshot`: `(rx1 > rx0 ? rx1 - rx0 : 0)`. -/
def snapshot_net_delta (cur prev : Nat) : Nat := if cur > prev then ull_sub cur prev else 0

/-- The network delta of the loop in `main`: `(rx >= prev_rx) ? (rx - prev_rx) : 0`. -/
def main_net_delta (cur prev : Nat) : Nat := if cur ≥ prev then ull_sub cur prev else 0

/-- The rate shown by the loop in `main`: `d_rx / REFRESH_SECS`. -/
def main_net_rate (cur prev : Nat) : Nat := main_net_delta cur prev / REFRESH_SECS

/-- The row `printf("%-6d %-10ld %.60s\n", ...)` prints for an entry. -/
def snapshot_row (p : proc_info_t) : proc_info_t := { p with cmd := p.cmd.take 60 }

/-- Model of `print_snapshot`: `none` when it returns without printing. -/
def print_snapshot (env : sys_env) : Option snapshot_t :=
  let r1 := read_cpu_stat env.proc_stat_1 cpu_stat_zero
  if r1.1 ≠ 0 then none
  else
    let r2 := read_cpu_stat env.proc_stat_2 cpu_stat_zero
    if r2.1 ≠ 0 then none
    else
      let cpu_pct := compute_cpu_usage r1.2 r2.2
      let mem := (read_meminfo env.meminfo (0, 0, 0)).2
      let mem_total := mem.1
      let mem_avail := mem.2.2
      let mem_used := (snapshot_mem mem_total mem_avail).1
      let mem_pct := (snapshot_mem mem_total mem_avail).2
      let disk := (read_disk_usage env.root_statvfs (0, 0, 0)).2
      let disk_total := disk.1
      let disk_used := disk.2.1
      let disk_pct := usage_pct disk_used disk_total
      let n0 := (read_net_totals env.net_dev_1 (0, 0)).2
      let n1 := (read_net_totals env.net_dev_2 (0, 0)).2
      let drx := snapshot_net_delta n1.1 n0.1
      let dtx := snapshot_net_delta n1.2 n0.2
      let procs := qsort cmp_procs (read_processes env.procfs []).2
      let count := procs.length
      let show_n := if count < 10 then count else 10
      some { cpu_pct := cpu_pct
             mem_pct := mem_pct
             mem_used_mb := mem_used / 1024
             mem_total_mb := mem_total / 1024
             disk_pct := disk_pct
             disk_used_mb := disk_used / 1024
             disk_total_mb := disk_total / 1024
             drx := drx
             dtx := dtx
             rows := (procs.take show_n).map snapshot_row }

/-! ## Specification-side definitions -/

/-- Idle time of a sample as the specification defines it: idle + iowait. -/
def spec_idle (s : cpu_stat_t) : Int := (s.idle : Int) + s.iowait

/-- Non-idle time of a sample as the specification defines it. -/
def spec_non_idle (s : cpu_stat_t) : Int :=
  (s.user : Int) + s.nice + s.system + s.irq + s.softirq + s.steal

/-- Total time of a sample as the specification defines it: idle + non-idle. -/
def spec_total (s : cpu_stat_t) : Int := spec_idle s + spec_non_idle s

/-- The percentage of the specification: (Δtotal − Δidle) / Δtotal × 100. -/
def spec_cpu_percent (prev cur : cpu_stat_t) : ℚ :=
  (((spec_total cur - spec_total prev) - (spec_idle cur - spec_idle prev) : Int) : ℚ)
    / ((spec_total cur - spec_total prev : Int) : ℚ) * 100

/-- A first line of the processor statistics that cannot be parsed at all: there is
no label, or no numeric counter can be read after the label. -/
def cpu_line_unparseable (buf : List Char) : Bool :=
  match scan_s 15 buf with
  | none => true
  | some (_, rest) => (scan_llu rest).isNone

/-- The resident size as the specification words it: the integer value of the 24th
whitespace-separated field following the first closing parenthesis of the line,
multiplied by the page size in kilobytes. -/
def claimed_rss_kb (buf : List Char) (pagesize : Int) : Int :=
  match strchr buf ')' with
  | none => 0
  | some i => atol ((strtok_all isspace (buf.drop (i + 1))).getD 23 []) * Int.tdiv pagesize 1024

/-- A stat line in which the text of field k is the number k (fields 4 to 30). -/
def sample_stat_line : List Char :=
  "1234 (bash) S 4 5 6 7 8 9 10 11 12 13 14 15 16 17 18 19 20 21 22 23 24 25 26 27 28 29 30\n".toList

/-- The same line for a process whose short name contains a closing parenthesis. -/
def sample_stat_line_paren : List Char :=
  "1234 (a) b) S 4 5 6 7 8 9 10 11 12 13 14 15 16 17 18 19 20 21 22 23 24 25 26 27 28 29 30\n".toList

/-- A process directory with the single process 1234, pages of 4096 bytes. -/
def sample_proc_fs : proc_fs :=
  { entries := some ["1234".toList]
    cmdline := fun _ => some "bash".toList
    comm := fun _ => some "bash\n".toList
    stat := fun _ => some sample_stat_line
    pagesize := 4096 }

/-- An environment in which `/proc/stat` can be read the first time and cannot be
opened the second time; every other source is readable. -/
def sample_env_second_cpu_read_fails : sys_env :=
  { proc_stat_1 := some "cpu  10 20 30 40 50 60 70 80 0 0\n".toList
    proc_stat_2 := none
    meminfo := some "MemTotal: 1024 kB\nMemFree: 100 kB\nMemAvailable: 256 kB\n".toList
    root_statvfs := some ⟨4096, 256, 64⟩
    net_dev_1 := some "h\nh\n  eth0: 200 0 0 0 0 0 0 0 300 0 0 0 0 0 0 0\n".toList
    net_dev_2 := some "h\nh\n  eth0: 700 0 0 0 0 0 0 0 900 0 0 0 0 0 0 0\n".toList
    procfs := sample_proc_fs }

/-- An environment in which only the two reads of `/proc/stat` succeed. -/
def sample_env_only_cpu : sys_env :=
  { proc_stat_1 := some "cpu  0 0 0 0 0 0 0 0 0 0\n".toList
    proc_stat_2 := some "cpu  15 0 5 70 10 0 0 0 0 0\n".toList
    meminfo := none
    root_statvfs := none
    net_dev_1 := none
    net_dev_2 := none
    procfs := { entries := none, cmdline := fun _ => none, comm := fun _ => none,
                stat := fun _ => none, pagesize := 4096 } }

/-- An environment in which the first read of `/proc/net/dev` fails and the second
succeeds; both reads of `/proc/stat` succeed. -/
def sample_env_first_net_read_fails : sys_env :=
  { proc_stat_1 := some "cpu  0 0 0 0 0 0 0 0 0 0\n".toList
    proc_stat_2 := some "cpu  15 0 5 70 10 0 0 0 0 0\n".toList
    meminfo := some "MemTotal: 1024 kB\nMemFree: 100 kB\nMemAvailable: 256 kB\n".toList
    root_statvfs := some ⟨4096, 256, 64⟩
    net_dev_1 := none
    net_dev_2 := some "h\nh\n  eth0: 700 0 0 0 0 0 0 0 900 0 0 0 0 0 0 0\n".toList
    procfs := sample_proc_fs }

/-! ### The network-device listing of the specification -/

/-- The character of a decimal digit. -/
def digit_char (d : Nat) : Char := Char.ofNat (48 + d)

/-- Decimal numeral of `n`, most significant digit first; `fuel` bounds the number
of digits. -/
def decimal_fuel : Nat → Nat → List Char
  | 0, _ => []
  | fuel + 1, n =>
    if n < 10 then [digit_char n] else decimal_fuel fuel (n / 10) ++ [digit_char (n % 10)]

/-- Decimal numeral of `n`. -/
def decimal (n : Nat) : List Char := decimal_fuel (n + 1) n

/-- One interface line of the listing: `lead` blanks, the interface name, a colon and
the numeric fields. A field is a pair: the number of extra blanks in front of it and
its value. -/
structure net_dev_line where
  lead : Nat
  name : List Char
  cols : List (Nat × Nat)
deriving DecidableEq

/-- The fields after the first one: each preceded by one blank and its extra blanks. -/
def render_cols_tail : List (Nat × Nat) → List Char
  | [] => []
  | c :: cs => List.replicate (c.1 + 1) ' ' ++ decimal c.2 ++ render_cols_tail cs

/-- The fields of a line: the first may follow the colon directly. -/
def render_cols : List (Nat × Nat) → List Char
  | [] => []
  | c :: cs => List.replicate c.1 ' ' ++ decimal c.2 ++ render_cols_tail cs

/-- The text of an interface line, `<iface>: <fields>` and a newline. -/
def render_line (l : net_dev_line) : List Char :=
  List.replicate l.lead ' ' ++ l.name ++ ':' :: (render_cols l.cols ++ ['\n'])

/-- A line of text as `fgets` with a 512-byte buffer returns it whole: it ends with
its only newline and has at most 511 characters. -/
def is_text_line (h : List Char) : Prop :=
  ∃ t : List Char, h = t ++ ['\n'] ∧ '\n' ∉ t ∧ h.length ≤ 511

/-- A well-formed interface line: the name has no blank, newline, colon or NUL, every
field is an `unsigned long long` value and the line fits the 512-byte buffer. -/
def net_dev_line_ok (l : net_dev_line) : Prop :=
  (∀ c ∈ l.name, c ≠ ' ' ∧ c ≠ '\t' ∧ c ≠ '\n' ∧ c ≠ ':' ∧ c ≠ NUL) ∧
  (∀ c ∈ l.cols, c.2 < 2 ^ 64) ∧
  (render_line l).length ≤ 511

/-- The text of a listing: two header lines, then one line per interface. -/
def render_listing (h1 h2 : List Char) (ls : List net_dev_line) : List Char :=
  h1 ++ (h2 ++ (ls.map render_line).flatten)

/-- Received bytes a line contributes: its first field, or 0 with fewer than nine fields. -/
def line_rx (l : net_dev_line) : Nat :=
  if 9 ≤ l.cols.length then (l.cols.map Prod.snd).getD 0 0 else 0

/-- Transmitted bytes a line contributes: its ninth field, or 0 with fewer than nine fields. -/
def line_tx (l : net_dev_line) : Nat :=
  if 9 ≤ l.cols.length then (l.cols.map Prod.snd).getD 8 0 else 0

/-- Sum of the first fields over the lines whose interface name is not `lo`. -/
def spec_rx (ls : List net_dev_line) : Nat :=
  ((ls.filter (fun l => decide (l.name ≠ lo_name))).map line_rx).sum

/-- Sum of the ninth fields over the lines whose interface name is not `lo`. -/
def spec_tx (ls : List net_dev_line) : Nat :=
  ((ls.filter (fun l => decide (l.name ≠ lo_name))).map line_tx).sum

def sample_header_1 : List Char :=
  "Inter-|   Receive                                                |  Transmit\n".toList

def sample_header_2 : List Char :=
  " face |bytes    packets errs drop fifo frame compressed multicast|bytes    packets errs drop fifo colls carrier compressed\n".toList

/-- The listing of the specification's example: `lo` with rx = tx = 1000 and `eth0`
with rx = 200, tx = 300. -/
def sample_listing : List net_dev_line :=
  [ { lead := 4, name := "lo".toList,
      cols := [(1, 1000), (3, 10), (0, 0), (0, 0), (0, 0), (0, 0), (0, 0), (0, 0),
               (1, 1000), (3, 10), (0, 0), (0, 0), (0, 0), (0, 0), (0, 0), (0, 0)] },
    { lead := 2, name := "eth0".toList,
      cols := [(1, 200), (3, 2), (0, 0), (0, 0), (0, 0), (0, 0), (0, 0), (0, 0),
               (1, 300), (3, 3), (0, 0), (0, 0), (0, 0), (0, 0), (0, 0), (0, 0)] } ]

/-- Two interfaces that each received 2^63 bytes. -/
def sample_listing_wrap : List net_dev_line :=
  [ { lead := 2, name := "eth0".toList,
      cols := [(1, 9223372036854775808), (0, 1), (0, 0), (0, 0), (0, 0), (0, 0), (0, 0), (0, 0),
               (1, 300), (0, 3), (0, 0), (0, 0), (0, 0), (0, 0), (0, 0), (0, 0)] },
    { lead := 2, name := "eth1".toList,
      cols := [(1, 9223372036854775808), (0, 1), (0, 0), (0, 0), (0, 0), (0, 0), (0, 0), (0, 0),
               (1, 500), (0, 5), (0, 0), (0, 0), (0, 0), (0, 0), (0, 0), (0, 0)] } ]

/-- A listing whose only interface line has 520 blanks between the colon and the first
of its nine fields, hence more than 511 characters. -/
def sample_listing_long_line : List net_dev_line :=
  [ { lead := 2, name := "eth0".toList,
      cols := [(520, 5), (0, 0), (0, 0), (0, 0), (0, 0), (0, 0), (0, 0), (0, 0), (0, 7)] } ]

/-- A process directory with a kernel thread (no resident pages, empty `cmdline`) and a
process with 536870913 resident pages of 4096 bytes. -/
def sample_proc_fs_large : proc_fs :=
  { entries := some ["1".toList, "2".toList]
    cmdline := fun pid => if pid = 2 then some ['d', 'b', NUL, '-', 'x', NUL] else some []
    comm := fun pid => if pid = 2 then some "db\n".toList else some "kthreadd\n".toList
    stat := fun pid =>
      if pid = 2 then
        some "2 (db) S 1 2 2 0 -1 4194560 0 0 0 0 0 0 0 0 20 0 1 0 100 2199023259648 536870913 18446744073709551615 1 1\n".toList
      else
        some "1 (kthreadd) S 0 0 0 0 -1 2129984 0 0 0 0 0 0 0 0 20 0 1 0 1 0 0 18446744073709551615 0 0\n".toList
    pagesize := 4096 }

/-! ## Double arithmetic lemmas -/

theorem round_half_even_eval (x : ℚ) (f : Int) (h1 : (f : ℚ) ≤ x) (h2 : x < f + 1) :
    round_half_even x =
      if x - f < 1 / 2 then f else if 1 / 2 < x - f then f + 1
      else if f % 2 = 0 then f else f + 1 := by
  have hf : Int.floor x = f := Int.floor_eq_iff.mpr ⟨h1, h2⟩
  unfold round_half_even
  rw [hf]

theorem round_half_even_intCast (k : Int) : round_half_even (k : ℚ) = k := by
  rw [round_half_even_eval (k : ℚ) k le_rfl (by linarith)]
  simp

theorem round_half_even_bounds (x : ℚ) :
    (Int.floor x : ℚ) ≤ round_half_even x ∧ (round_half_even x : ℚ) ≤ Int.floor x + 1 ∧
    |(round_half_even x : ℚ) - x| ≤ 1 / 2 := by
  have h1 := Int.floor_le x
  have h2 := Int.lt_floor_add_one x
  unfold round_half_even
  split_ifs with a b c
  · refine ⟨le_rfl, by linarith, ?_⟩
    rw [abs_le]; constructor <;> linarith
  · refine ⟨by push_cast; linarith, by push_cast; linarith, ?_⟩
    push_cast
    rw [abs_le]; constructor <;> linarith
  · refine ⟨le_rfl, by linarith, ?_⟩
    rw [abs_le]; constructor <;> linarith
  · refine ⟨by push_cast; linarith, by push_cast; linarith, ?_⟩
    push_cast
    rw [abs_le]; constructor <;> linarith

theorem round_half_even_mono (x y : ℚ) (h : x ≤ y) : round_half_even x ≤ round_half_even y := by
  have hfl : Int.floor x ≤ Int.floor y := Int.floor_mono h
  rcases lt_or_eq_of_le hfl with hlt | heq
  · have hx := (round_half_even_bounds x).2.1
    have hy := (round_half_even_bounds y).1
    have hx' : round_half_even x ≤ Int.floor x + 1 := by exact_mod_cast hx
    have hy' : Int.floor y ≤ round_half_even y := by exact_mod_cast hy
    omega
  · unfold round_half_even
    rw [← heq]
    split_ifs <;> first | omega | (exfalso; linarith)


theorem ulp_pos (q : ℚ) : 0 < ulp q := by
  unfold ulp; positivity

/-- A positive `q` lies in the binade of its exponent. -/
theorem binade_bounds (q : ℚ) (hq : 0 < q) :
    (2 : ℚ) ^ Int.log 2 q ≤ q ∧ q < (2 : ℚ) ^ (Int.log 2 q + 1) := by
  have h1 := Int.zpow_log_le_self (b := 2) (r := q) (by norm_num) hq
  have h2 := Int.lt_zpow_succ_log_self (b := 2) (by norm_num) q
  simp only [Nat.cast_ofNat] at h1 h2
  exact ⟨h1, h2⟩

theorem scaled_bounds (q : ℚ) (hq : 0 < q) :
    (2 : ℚ) ^ (52 : Int) ≤ q / ulp q ∧ q / ulp q < (2 : ℚ) ^ (53 : Int) := by
  obtain ⟨h1, h2⟩ := binade_bounds q hq
  have hu := ulp_pos q
  have e1 : (2 : ℚ) ^ (52 : Int) * ulp q = (2 : ℚ) ^ Int.log 2 q := by
    unfold ulp
    rw [← zpow_add₀ (by norm_num : (2 : ℚ) ≠ 0)]
    congr 1; ring
  have e2 : (2 : ℚ) ^ (53 : Int) * ulp q = (2 : ℚ) ^ (Int.log 2 q + 1) := by
    unfold ulp
    rw [← zpow_add₀ (by norm_num : (2 : ℚ) ≠ 0)]
    congr 1; ring
  constructor
  · rw [le_div_iff₀ hu, e1]; exact h1
  · rw [div_lt_iff₀ hu, e2]; exact h2

/-- Rounding keeps a positive value inside its binade (ends included). -/
theorem round_pos_bounds (q : ℚ) (hq : 0 < q) :
    (2 : ℚ) ^ Int.log 2 q ≤ round_pos q ∧ round_pos q ≤ (2 : ℚ) ^ (Int.log 2 q + 1) := by
  obtain ⟨h1, h2⟩ := scaled_bounds q hq
  have hu := ulp_pos q
  have a : ((2 ^ 52 : Int)) ≤ round_half_even (q / ulp q) := by
    have := round_half_even_mono ((2 ^ 52 : Int) : ℚ) (q / ulp q) (by push_cast; exact_mod_cast h1)
    rwa [round_half_even_intCast] at this
  have b : round_half_even (q / ulp q) ≤ ((2 ^ 53 : Int)) := by
    have := round_half_even_mono (q / ulp q) ((2 ^ 53 : Int) : ℚ) (by push_cast; exact_mod_cast h2.le)
    rwa [round_half_even_intCast] at this
  have a' : ((2 : ℚ) ^ (52 : Int)) ≤ (round_half_even (q / ulp q) : ℚ) := by
    have : (((2 ^ 52 : Int)) : ℚ) ≤ (round_half_even (q / ulp q) : ℚ) := by exact_mod_cast a
    norm_num at this ⊢
    exact this
  have b' : (round_half_even (q / ulp q) : ℚ) ≤ ((2 : ℚ) ^ (53 : Int)) := by
    have : (round_half_even (q / ulp q) : ℚ) ≤ (((2 ^ 53 : Int)) : ℚ) := by exact_mod_cast b
    norm_num at this ⊢
    exact this
  have e1 : (2 : ℚ) ^ (52 : Int) * ulp q = (2 : ℚ) ^ Int.log 2 q := by
    unfold ulp
    rw [← zpow_add₀ (by norm_num : (2 : ℚ) ≠ 0)]
    congr 1; ring
  have e2 : (2 : ℚ) ^ (53 : Int) * ulp q = (2 : ℚ) ^ (Int.log 2 q + 1) := by
    unfold ulp
    rw [← zpow_add₀ (by norm_num : (2 : ℚ) ≠ 0)]
    congr 1; ring
  unfold round_pos
  constructor
  · rw [← e1]; exact mul_le_mul_of_nonneg_right a' hu.le
  · rw [← e2]; exact mul_le_mul_of_nonneg_right b' hu.le

theorem round_pos_mono (a b : ℚ) (ha : 0 < a) (hab : a ≤ b) : round_pos a ≤ round_pos b := by
  have hb : 0 < b := lt_of_lt_of_le ha hab
  have hlog : Int.log 2 a ≤ Int.log 2 b := Int.log_mono_right ha hab
  rcases lt_or_eq_of_le hlog with hlt | heq
  · have h1 := (round_pos_bounds a ha).2
    have h2 := (round_pos_bounds b hb).1
    have h3 : (2 : ℚ) ^ (Int.log 2 a + 1) ≤ (2 : ℚ) ^ Int.log 2 b :=
      zpow_le_zpow_right₀ (by norm_num) (by omega)
    linarith
  · have hu : ulp a = ulp b := by unfold ulp; rw [heq]
    unfold round_pos
    rw [hu]
    have hub := ulp_pos b
    have : round_half_even (a / ulp b) ≤ round_half_even (b / ulp b) :=
      round_half_even_mono _ _ (div_le_div_of_nonneg_right hab hub.le)
    have hc : (round_half_even (a / ulp b) : ℚ) ≤ (round_half_even (b / ulp b) : ℚ) := by
      exact_mod_cast this
    exact mul_le_mul_of_nonneg_right hc hub.le

theorem to_double_zero : to_double 0 = 0 := by
  simp [to_double]

theorem to_double_of_pos (q : ℚ) (hq : 0 < q) : to_double q = round_pos q := by
  simp [to_double, hq]

/-- Rounding is monotone on non-negative values. -/
theorem to_double_mono (a b : ℚ) (ha : 0 ≤ a) (hab : a ≤ b) : to_double a ≤ to_double b := by
  rcases lt_or_eq_of_le ha with hpos | hz
  · rw [to_double_of_pos a hpos, to_double_of_pos b (lt_of_lt_of_le hpos hab)]
    exact round_pos_mono a b hpos hab
  · rw [← hz, to_double_zero]
    rcases lt_or_eq_of_le (le_trans ha hab) with hb | hb
    · rw [to_double_of_pos b hb]
      exact le_trans (by positivity) (round_pos_bounds b hb).1
    · rw [← hb, to_double_zero]


theorem round_pos_of_scaled_int (q : ℚ) (z : Int) (h : q / ulp q = (z : ℚ)) :
    round_pos q = q := by
  unfold round_pos
  rw [h, round_half_even_intCast, ← h]
  exact div_mul_cancel₀ q (ulp_pos q).ne'

/-- A value `m * 2^k` with `0 < m < 2^53` is a double: rounding leaves it as it is. -/
theorem to_double_dyadic (m : Nat) (k : Int) (hm0 : 0 < m) (hm : m < 2 ^ 53) :
    to_double ((m : ℚ) * (2 : ℚ) ^ k) = (m : ℚ) * (2 : ℚ) ^ k := by
  have h2 : (2 : ℚ) ≠ 0 := by norm_num
  have hmq : (0 : ℚ) < (m : ℚ) := by exact_mod_cast hm0
  have hq : (0 : ℚ) < (m : ℚ) * (2 : ℚ) ^ k := by positivity
  rw [to_double_of_pos _ hq]
  have hlt : (m : ℚ) * (2 : ℚ) ^ k < (2 : ℚ) ^ (53 + k) := by
    rw [zpow_add₀ h2]
    have : (m : ℚ) < (2 : ℚ) ^ (53 : Int) := by
      have : (m : ℚ) < ((2 ^ 53 : Nat) : ℚ) := by exact_mod_cast hm
      norm_num at this ⊢
      exact this
    exact mul_lt_mul_of_pos_right this (by positivity)
  have hlog : Int.log 2 ((m : ℚ) * (2 : ℚ) ^ k) < 53 + k := by
    apply (Int.lt_zpow_iff_log_lt (b := 2) (by norm_num) hq).mp
    simpa using hlt
  obtain ⟨n, hn⟩ : ∃ n : Nat, k - (Int.log 2 ((m : ℚ) * (2 : ℚ) ^ k) - 52) = (n : Int) :=
    ⟨(k - (Int.log 2 ((m : ℚ) * (2 : ℚ) ^ k) - 52)).toNat, by omega⟩
  apply round_pos_of_scaled_int _ ((m : Int) * 2 ^ n)
  unfold ulp
  rw [mul_div_assoc, ← zpow_sub₀ h2, hn, zpow_natCast]
  push_cast
  rfl

/-- Every natural number up to 2^53 is a double. -/
theorem to_double_natCast (n : Nat) (h : n ≤ 2 ^ 53) : to_double (n : ℚ) = (n : ℚ) := by
  rcases Nat.eq_zero_or_pos n with h0 | hpos
  · rw [h0]; simp [to_double_zero]
  · rcases lt_or_eq_of_le h with hlt | heq
    · have := to_double_dyadic n 0 hpos hlt
      simpa using this
    · have := to_double_dyadic 1 53 (by norm_num) (by norm_num)
      rw [heq]
      norm_num at this ⊢
      exact this

theorem to_double_natCast_pos (t : Nat) (ht : 0 < t) : 1 ≤ to_double (t : ℚ) := by
  have h1 : to_double ((1 : Nat) : ℚ) = ((1 : Nat) : ℚ) := to_double_natCast 1 (by norm_num)
  have h2 : ((1 : Nat) : ℚ) ≤ (t : ℚ) := by exact_mod_cast ht
  have := to_double_mono _ _ (by norm_num) h2
  rw [h1] at this
  simpa using this

/-- The expression `(double)n * 100.0 / (double)t` is never a division by zero for `t > 0`. -/
theorem pct_expr_finite (n t : Nat) (ht : 0 < t) :
    fdiv (fmul (to_double (n : ℚ)) 100) (to_double (t : ℚ))
      = some (to_double (fmul (to_double (n : ℚ)) 100 / to_double (t : ℚ))) := by
  have h := to_double_natCast_pos t ht
  have hne : to_double (t : ℚ) ≠ 0 := by linarith
  rw [fdiv, if_neg hne]

/-- Where `n * 100` and `t` are at most 2^53 the conversions and the product are exact
and the expression is the quotient rounded once. -/
theorem pct_expr_exact (n t : Nat) (hn : n * 100 ≤ 2 ^ 53) (ht : 0 < t) (ht2 : t ≤ 2 ^ 53) :
    fdiv (fmul (to_double (n : ℚ)) 100) (to_double (t : ℚ))
      = some (to_double ((n : ℚ) * 100 / (t : ℚ))) := by
  have h1 : to_double (n : ℚ) = (n : ℚ) := to_double_natCast n (by omega)
  have h2 : fmul (n : ℚ) 100 = (n : ℚ) * 100 := by
    have := to_double_natCast (n * 100) hn
    unfold fmul
    push_cast at this
    exact this
  have h3 : to_double (t : ℚ) = (t : ℚ) := to_double_natCast t ht2
  rw [pct_expr_finite n t ht, h1, h2, h3]

/-- For 64-bit operands every value the expression computes is 0 or lies between
2^-58 and 2^71, inside the exponent range of a double. -/
theorem pct_expr_range (n t : Nat) (hn : n < 2 ^ 64) (ht0 : 0 < t) (ht : t < 2 ^ 64) :
    (to_double (n : ℚ) = 0 ∨ (1 ≤ to_double (n : ℚ) ∧ to_double (n : ℚ) ≤ 2 ^ 64)) ∧
    (1 ≤ to_double (t : ℚ) ∧ to_double (t : ℚ) ≤ 2 ^ 64) ∧
    (fmul (to_double (n : ℚ)) 100 = 0 ∨
      (100 ≤ fmul (to_double (n : ℚ)) 100 ∧ fmul (to_double (n : ℚ)) 100 ≤ 2 ^ 71)) ∧
    ∃ r : ℚ, fdiv (fmul (to_double (n : ℚ)) 100) (to_double (t : ℚ)) = some r ∧
      (r = 0 ∨ ((2 : ℚ) ^ (-58 : Int) ≤ r ∧ r ≤ 2 ^ 71)) := by
  have h64 : to_double ((2 : ℚ) ^ 64) = 2 ^ 64 := by
    have := to_double_dyadic 1 64 (by norm_num) (by norm_num)
    norm_num at this ⊢
    exact this
  have hbig : to_double ((2 : ℚ) ^ 64 * 100) = 2 ^ 64 * 100 := by
    have := to_double_dyadic 25 66 (by norm_num) (by norm_num)
    norm_num at this ⊢
    exact this
  have hsmall : to_double ((100 : ℚ) / 2 ^ 64) = 100 / 2 ^ 64 := by
    have := to_double_dyadic 25 (-62) (by norm_num) (by norm_num)
    norm_num at this ⊢
    exact this
  have h100 : to_double (100 : ℚ) = 100 := by
    have := to_double_natCast 100 (by norm_num)
    simpa using this
  have upper (m : Nat) (hm : m < 2 ^ 64) : to_double (m : ℚ) ≤ 2 ^ 64 := by
    have hq : (m : ℚ) ≤ (2 : ℚ) ^ 64 := by exact_mod_cast hm.le
    have := to_double_mono _ _ (by positivity) hq
    rwa [h64] at this
  have htd : 1 ≤ to_double (t : ℚ) ∧ to_double (t : ℚ) ≤ 2 ^ 64 :=
    ⟨to_double_natCast_pos t ht0, upper t ht⟩
  rcases Nat.eq_zero_or_pos n with hz | hpos
  · subst hz
    have e0 : to_double ((0 : Nat) : ℚ) = 0 := by simp [to_double_zero]
    have e1 : fmul (to_double ((0 : Nat) : ℚ)) 100 = 0 := by
      rw [e0]; simp [fmul, to_double_zero]
    refine ⟨Or.inl e0, htd, Or.inl e1,
      to_double (fmul (to_double ((0 : Nat) : ℚ)) 100 / to_double (t : ℚ)),
      pct_expr_finite 0 t ht0, Or.inl ?_⟩
    rw [e1]; simp [to_double_zero]
  · have hnd : 1 ≤ to_double (n : ℚ) ∧ to_double (n : ℚ) ≤ 2 ^ 64 :=
      ⟨to_double_natCast_pos n hpos, upper n hn⟩
    have hm : 100 ≤ fmul (to_double (n : ℚ)) 100 ∧
        fmul (to_double (n : ℚ)) 100 ≤ 2 ^ 64 * 100 := by
      unfold fmul
      constructor
      · have := to_double_mono 100 (to_double (n : ℚ) * 100) (by norm_num) (by linarith)
        rwa [h100] at this
      · have := to_double_mono (to_double (n : ℚ) * 100) ((2 : ℚ) ^ 64 * 100)
          (by linarith) (by linarith)
        rwa [hbig] at this
    have hpos_t : (0 : ℚ) < to_double (t : ℚ) := by linarith
    have hq_lo : (100 : ℚ) / 2 ^ 64 ≤ fmul (to_double (n : ℚ)) 100 / to_double (t : ℚ) := by
      rw [div_le_div_iff₀ (by positivity) hpos_t]
      nlinarith
    have hq_hi : fmul (to_double (n : ℚ)) 100 / to_double (t : ℚ) ≤ (2 : ℚ) ^ 64 * 100 := by
      rw [div_le_iff₀ hpos_t]
      nlinarith
    refine ⟨Or.inr hnd, htd, Or.inr ⟨hm.1, by norm_num at hm ⊢; linarith⟩,
      to_double (fmul (to_double (n : ℚ)) 100 / to_double (t : ℚ)),
      pct_expr_finite n t ht0, Or.inr ⟨?_, ?_⟩⟩
    · have := to_double_mono _ _ (by positivity) hq_lo
      rw [hsmall] at this
      have e : (2 : ℚ) ^ (-58 : Int) ≤ 100 / 2 ^ 64 := by norm_num
      linarith
    · have := to_double_mono _ _ (le_trans (by positivity) hq_lo) hq_hi
      rw [hbig] at this
      have e : (2 : ℚ) ^ 64 * 100 ≤ 2 ^ 71 := by norm_num
      linarith

/-! ## Machine arithmetic lemmas -/

theorem ull_add_cast_raw (a b : Nat) :
    ((ull_add a b : Nat) : Int) = ((a : Int) + b) % 2 ^ 64 := by
  unfold ull_add; omega

theorem ull_add_cast_right (a b : Nat) (x : Int) (ha : (a : Int) = x % 2 ^ 64) :
    ((ull_add a b : Nat) : Int) = (x + b) % 2 ^ 64 := by
  unfold ull_add; omega

theorem ull_add_cast (a b : Nat) (x y : Int) (ha : (a : Int) = x % 2 ^ 64)
    (hb : (b : Int) = y % 2 ^ 64) : ((ull_add a b : Nat) : Int) = (x + y) % 2 ^ 64 := by
  unfold ull_add; omega

theorem ull_sub_cast (a b : Nat) (x y : Int) (ha : (a : Int) = x % 2 ^ 64)
    (hb : (b : Int) = y % 2 ^ 64) : ((ull_sub a b : Nat) : Int) = (x - y) % 2 ^ 64 := by
  unfold ull_sub; omega

theorem ull_sub_of_le (a b : Nat) (h : b ≤ a) (ha : a < 2 ^ 64) : ull_sub a b = a - b := by
  unfold ull_sub; omega

/-! ## `compute_cpu_usage` -/

theorem cpu_idle_cast (s : cpu_stat_t) :
    ((ull_add s.idle s.iowait : Nat) : Int) = spec_idle s % 2 ^ 64 := ull_add_cast_raw _ _

theorem cpu_non_idle_cast (s : cpu_stat_t) :
    ((ull_add (ull_add (ull_add (ull_add (ull_add
      s.user s.nice) s.system) s.irq) s.softirq) s.steal : Nat) : Int)
      = spec_non_idle s % 2 ^ 64 := by
  unfold spec_non_idle
  exact ull_add_cast_right _ _ _ (ull_add_cast_right _ _ _ (ull_add_cast_right _ _ _
    (ull_add_cast_right _ _ _ (ull_add_cast_raw _ _))))

/-- The two machine quantities `compute_cpu_usage` converts to `double`, `totald` and
`totald - idled`, are the specification's deltas reduced modulo `2 ^ 64`. -/
theorem cpu_deltas (prev cur : cpu_stat_t) :
    ∃ T N : Nat,
      compute_cpu_usage prev cur =
        (if T = 0 then some 0
         else fdiv (fmul (to_double (N : ℚ)) 100) (to_double (T : ℚ))) ∧
      (T : Int) = (spec_total cur - spec_total prev) % 2 ^ 64 ∧
      (N : Int) = (spec_non_idle cur - spec_non_idle prev) % 2 ^ 64 := by
  have hT := ull_sub_cast _ _ _ _
    (ull_add_cast _ _ _ _ (cpu_idle_cast cur) (cpu_non_idle_cast cur))
    (ull_add_cast _ _ _ _ (cpu_idle_cast prev) (cpu_non_idle_cast prev))
  have hI := ull_sub_cast _ _ _ _ (cpu_idle_cast cur) (cpu_idle_cast prev)
  have hN := ull_sub_cast _ _ _ _ hT hI
  refine ⟨_, _, rfl, hT, ?_⟩
  rw [hN]
  congr 1
  ring

/-- The result of `compute_cpu_usage` in terms of the two deltas, for deltas given as
natural numbers. -/
theorem compute_cpu_usage_of_deltas (prev cur : cpu_stat_t) (T N : Nat)
    (hT : (T : Int) = (spec_total cur - spec_total prev) % 2 ^ 64)
    (hN : (N : Int) = (spec_non_idle cur - spec_non_idle prev) % 2 ^ 64) :
    compute_cpu_usage prev cur =
      (if T = 0 then some 0 else fdiv (fmul (to_double (N : ℚ)) 100) (to_double (T : ℚ))) := by
  obtain ⟨T', N', hc, hT', hN'⟩ := cpu_deltas prev cur
  have e1 : T' = T := by omega
  have e2 : N' = N := by omega
  rw [hc, e1, e2]

theorem spec_cpu_percent_bounds (prev cur : cpu_stat_t)
    (hn : spec_non_idle prev ≤ spec_non_idle cur)
    (hi : spec_idle prev ≤ spec_idle cur)
    (ht : spec_total prev < spec_total cur) :
    0 ≤ spec_cpu_percent prev cur ∧ spec_cpu_percent prev cur ≤ 100 := by
  unfold spec_cpu_percent
  have hd : (0 : ℚ) < ((spec_total cur - spec_total prev : Int) : ℚ) := by
    have : (0 : Int) < spec_total cur - spec_total prev := by omega
    exact_mod_cast this
  have h0 : (0 : ℚ) ≤
      (((spec_total cur - spec_total prev) - (spec_idle cur - spec_idle prev) : Int) : ℚ) := by
    have : (0 : Int) ≤ (spec_total cur - spec_total prev) - (spec_idle cur - spec_idle prev) := by
      unfold spec_total; omega
    exact_mod_cast this
  have h1 : (((spec_total cur - spec_total prev) - (spec_idle cur - spec_idle prev) : Int) : ℚ)
      ≤ ((spec_total cur - spec_total prev : Int) : ℚ) := by
    have : (spec_total cur - spec_total prev) - (spec_idle cur - spec_idle prev)
        ≤ spec_total cur - spec_total prev := by omega
    exact_mod_cast this
  constructor
  · exact mul_nonneg (div_nonneg h0 hd.le) (by norm_num)
  · have : (((spec_total cur - spec_total prev) - (spec_idle cur - spec_idle prev) : Int) : ℚ)
        / ((spec_total cur - spec_total prev : Int) : ℚ) ≤ 1 := (div_le_one hd).mpr h1
    linarith

/-- The expression where quotient and operands are small integers: no rounding. -/
theorem pct_expr_small (n t r : Nat) (hn : n * 100 ≤ 2 ^ 53) (ht : 0 < t) (ht2 : t ≤ 2 ^ 53)
    (hr : n * 100 = r * t) (hr2 : r ≤ 2 ^ 53) :
    fdiv (fmul (to_double (n : ℚ)) 100) (to_double (t : ℚ)) = some (r : ℚ) := by
  rw [pct_expr_exact n t hn ht ht2]
  have htq : (t : ℚ) ≠ 0 := by exact_mod_cast ht.ne'
  have e : (n : ℚ) * 100 / (t : ℚ) = (r : ℚ) := by
    rw [div_eq_iff htq]
    exact_mod_cast hr
  rw [e, to_double_natCast r hr2]

/-- C3. For every pair of samples whose totals are equal (delta-total = 0),
`compute_cpu_usage` returns exactly 0; the division is not reached (a division by
zero would show as `none`). -/
theorem compute_cpu_usage_zero_of_equal_totals (prev cur : cpu_stat_t)
    (h : spec_total cur = spec_total prev) :
    compute_cpu_usage prev cur = some 0 := by
  obtain ⟨T, N, hc, hT, _⟩ := cpu_deltas prev cur
  have hT0 : T = 0 := by
    rw [h, sub_self] at hT
    omega
  rw [hc, if_pos hT0]

theorem compute_cpu_usage_zero_of_equal_totals_witness :
    spec_total ⟨1, 2, 3, 4, 5, 6, 7, 8⟩ = spec_total ⟨1, 2, 3, 4, 5, 6, 7, 8⟩ ∧
    compute_cpu_usage ⟨1, 2, 3, 4, 5, 6, 7, 8⟩ ⟨1, 2, 3, 4, 5, 6, 7, 8⟩ = some 0 :=
  ⟨rfl, compute_cpu_usage_zero_of_equal_totals ⟨1, 2, 3, 4, 5, 6, 7, 8⟩
    ⟨1, 2, 3, 4, 5, 6, 7, 8⟩ rfl⟩

/-- The division of `compute_cpu_usage` never has a zero divisor, and every value it
computes is 0 or lies between 2^-58 and 2^71. -/
theorem compute_cpu_usage_finite (prev cur : cpu_stat_t) :
    ∃ r : ℚ, compute_cpu_usage prev cur = some r ∧
      (r = 0 ∨ ((2 : ℚ) ^ (-58 : Int) ≤ r ∧ r ≤ 2 ^ 71)) := by
  obtain ⟨T, N, hc, hT, hN⟩ := cpu_deltas prev cur
  by_cases hT0 : T = 0
  · exact ⟨0, by rw [hc, if_pos hT0], Or.inl rfl⟩
  · obtain ⟨_, _, _, r, hr, hrange⟩ := pct_expr_range N T (by omega) (by omega) (by omega)
    exact ⟨r, by rw [hc, if_neg hT0, hr], hrange⟩

/-! ## Network deltas and usage percentages -/

/-- C4. For every pair of unsigned 64-bit byte counters, the network delta of the
one-shot snapshot and of the continuous loop is `cur - prev` when `cur ≥ prev` and
exactly 0 when `cur < prev`; the loop's rate (delta per refresh interval of one second)
is the same value; e.g. prev = 500, cur = 100 gives 0. -/
theorem net_delta_clamped (prev cur : Nat) (_hp : prev < 2 ^ 64) (hc : cur < 2 ^ 64) :
    snapshot_net_delta cur prev = (if prev ≤ cur then cur - prev else 0) ∧
    main_net_delta cur prev = (if prev ≤ cur then cur - prev else 0) ∧
    main_net_rate cur prev = (if prev ≤ cur then cur - prev else 0) := by
  have hmain : main_net_delta cur prev = (if prev ≤ cur then cur - prev else 0) := by
    unfold main_net_delta
    by_cases h : prev ≤ cur
    · rw [if_pos h, if_pos h, ull_sub_of_le cur prev h hc]
    · rw [if_neg h, if_neg h]
  refine ⟨?_, hmain, ?_⟩
  · unfold snapshot_net_delta
    by_cases h : prev < cur
    · rw [if_pos h, if_pos h.le, ull_sub_of_le cur prev h.le hc]
    · rw [if_neg h]
      by_cases h2 : prev ≤ cur
      · rw [if_pos h2]; omega
      · rw [if_neg h2]
  · unfold main_net_rate REFRESH_SECS
    rw [hmain, Nat.div_one]

theorem net_delta_clamped_witness :
    snapshot_net_delta 100 500 = 0 ∧ main_net_delta 100 500 = 0 ∧ main_net_rate 100 500 = 0 :=
  net_delta_clamped 500 100 (by decide) (by decide)

theorem qsort_insert_perm {α : Type} (cmp : α → α → Int) (x : α) (l : List α) :
    (qsort_insert cmp x l).Perm (x :: l) := by
  induction l with
  | nil => exact List.Perm.refl _
  | cons y ys ih =>
    unfold qsort_insert
    split
    · exact List.Perm.refl _
    · exact (List.Perm.cons y ih).trans (List.Perm.swap x y ys)

/-- The sort model only rearranges its input, whatever the comparator. -/
theorem qsort_perm {α : Type} (cmp : α → α → Int) (l : List α) : (qsort cmp l).Perm l := by
  induction l with
  | nil => exact List.Perm.refl _
  | cons x xs ih =>
    unfold qsort
    exact (qsort_insert_perm cmp x (qsort cmp xs)).trans (List.Perm.cons x ih)

/-- Where both values are non-negative and below 2^31 the sign of `cmp_procs` is the
sign of the difference. -/
theorem cmp_procs_le_zero_iff (A B : proc_info_t)
    (hA : 0 ≤ A.rss_kb ∧ A.rss_kb < 2 ^ 31) (hB : 0 ≤ B.rss_kb ∧ B.rss_kb < 2 ^ 31) :
    cmp_procs A B ≤ 0 ↔ B.rss_kb ≤ A.rss_kb := by
  unfold cmp_procs int_wrap long_wrap
  omega

theorem qsort_insert_sorted (x : proc_info_t) (l : List proc_info_t)
    (hx : 0 ≤ x.rss_kb ∧ x.rss_kb < 2 ^ 31)
    (hl : ∀ p ∈ l, 0 ≤ p.rss_kb ∧ p.rss_kb < 2 ^ 31)
    (hs : l.Pairwise (fun a b => b.rss_kb ≤ a.rss_kb)) :
    (qsort_insert cmp_procs x l).Pairwise (fun a b => b.rss_kb ≤ a.rss_kb) := by
  induction l with
  | nil => simp [qsort_insert]
  | cons y ys ih =>
    have hy := hl y (List.mem_cons_self y ys)
    have hys : ∀ p ∈ ys, 0 ≤ p.rss_kb ∧ p.rss_kb < 2 ^ 31 :=
      fun p hp => hl p (List.mem_cons_of_mem y hp)
    rw [List.pairwise_cons] at hs
    unfold qsort_insert
    split
    · rename_i hc
      have hxy : y.rss_kb ≤ x.rss_kb := (cmp_procs_le_zero_iff x y hx hy).mp hc
      rw [List.pairwise_cons]
      refine ⟨fun b hb => ?_, List.pairwise_cons.mpr hs⟩
      rcases List.mem_cons.mp hb with rfl | hb
      · exact hxy
      · exact le_trans (hs.1 b hb) hxy
    · rename_i hc
      have hxy : ¬ y.rss_kb ≤ x.rss_kb := fun h => hc ((cmp_procs_le_zero_iff x y hx hy).mpr h)
      rw [List.pairwise_cons]
      refine ⟨fun b hb => ?_, ih hys hs.2⟩
      rcases List.mem_cons.mp ((qsort_insert_perm cmp_procs x ys).mem_iff.mp hb) with rfl | hb
      · omega
      · exact hs.1 b hb

/-- Ranking is correct where every resident size is non-negative and below 2^31 KB:
the result is a permutation of the input with `rss_kb` non-increasing. -/
theorem qsort_cmp_procs_sorted_of_small (l : List proc_info_t)
    (hl : ∀ p ∈ l, 0 ≤ p.rss_kb ∧ p.rss_kb < 2 ^ 31) :
    (qsort cmp_procs l).Perm l ∧
    (qsort cmp_procs l).Pairwise (fun a b => b.rss_kb ≤ a.rss_kb) := by
  refine ⟨qsort_perm cmp_procs l, ?_⟩
  induction l with
  | nil => simp [qsort]
  | cons x xs ih =>
    have hxs : ∀ p ∈ xs, 0 ≤ p.rss_kb ∧ p.rss_kb < 2 ^ 31 :=
      fun p hp => hl p (List.mem_cons_of_mem x hp)
    unfold qsort
    exact qsort_insert_sorted x (qsort cmp_procs xs) (hl x (List.mem_cons_self x xs))
      (fun p hp => hxs p ((qsort_perm cmp_procs xs).mem_iff.mp hp)) (ih hxs)

/-- C5 (failing input). Two entries with `rss_kb` 0 and 2147483652 (2^31 + 4, a process
with 536870913 resident pages of 4 KB): the difference does not fit the `int` that
`cmp_procs` returns, its sign flips, and in either input order the ranking puts the
entry with 0 KB first, so `rss_kb` increases from the first entry to the second. The
two entries are what `read_processes` records for the directory `sample_proc_fs_large`. -/
theorem qsort_cmp_procs_misorders_large_rss :
    cmp_procs ⟨1, 0, []⟩ ⟨2, 2147483652, []⟩ = -2147483644 ∧
    cmp_procs ⟨2, 2147483652, []⟩ ⟨1, 0, []⟩ = 2147483644 ∧
    qsort cmp_procs [⟨1, 0, []⟩, ⟨2, 2147483652, []⟩]
      = [⟨1, 0, []⟩, ⟨2, 2147483652, []⟩] ∧
    qsort cmp_procs [⟨2, 2147483652, []⟩, ⟨1, 0, []⟩]
      = [⟨1, 0, []⟩, ⟨2, 2147483652, []⟩] ∧
    ¬ (qsort cmp_procs [⟨2, 2147483652, []⟩, ⟨1, 0, []⟩]).Pairwise
        (fun a b => b.rss_kb ≤ a.rss_kb) ∧
    (read_processes sample_proc_fs_large []).2
      = [⟨1, 0, "kthreadd".toList⟩, ⟨2, 2147483652, "db -x ".toList⟩] ∧
    (qsort cmp_procs (read_processes sample_proc_fs_large []).2).map (fun p => p.rss_kb)
      = [0, 2147483652] := by
  refine ⟨by decide, by decide, by decide, by decide, ?_, by decide, by decide⟩
  have h : qsort cmp_procs [⟨2, 2147483652, []⟩, ⟨1, 0, []⟩]
      = [⟨1, 0, []⟩, ⟨2, 2147483652, []⟩] := by decide
  rw [h]
  simp

/-! ## `read_cpu_stat` -/

theorem read_cpu_stat_status (src : Option (List Char)) (s : cpu_stat_t) :
    (read_cpu_stat src s).1 ≠ 0 ↔ (src = none ∨ src = some []) := by
  cases src with
  | none => simp [read_cpu_stat]
  | some stream =>
    cases stream with
    | nil => simp [read_cpu_stat, fgets]
    | cons c cs =>
      simp only [read_cpu_stat, fgets]
      cases scan_s 15 (c_str (fgets_take (512 - 1) (c :: cs)).1) with
      | none => simp
      | some p => simp

/-- C8 (as amended). `read_cpu_stat` returns a non-zero status exactly when the source
cannot be opened or holds no line; for every first line that is read but cannot be
parsed at all it returns 0 and leaves all eight counters as they were. -/
theorem read_cpu_stat_unparseable_line (stream buf rest : List Char) (s : cpu_stat_t)
    (hf : fgets 512 stream = some (buf, rest))
    (hu : cpu_line_unparseable buf = true) :
    read_cpu_stat (some stream) s = (0, s) ∧
    ∀ src : Option (List Char), (read_cpu_stat src s).1 ≠ 0 ↔ (src = none ∨ src = some []) := by
  refine ⟨?_, fun src => read_cpu_stat_status src s⟩
  simp only [read_cpu_stat, hf]
  unfold cpu_line_unparseable at hu
  cases hs : scan_s 15 buf with
  | none => rfl
  | some p =>
    obtain ⟨label, r⟩ := p
    rw [hs] at hu
    simp only [Option.isNone_iff_eq_none] at hu
    have hseq : scan_llu_seq 10 r = [] := by
      simp [scan_llu_seq, hu]
    simp [hseq]

theorem read_cpu_stat_unparseable_line_witness :
    fgets 512 "cpu\ncpu0 1 2 3\n".toList = some ("cpu\n".toList, "cpu0 1 2 3\n".toList) ∧
    cpu_line_unparseable "cpu\n".toList = true ∧
    read_cpu_stat (some "cpu\ncpu0 1 2 3\n".toList) ⟨1, 2, 3, 4, 5, 6, 7, 8⟩
      = (0, ⟨1, 2, 3, 4, 5, 6, 7, 8⟩) :=
  ⟨by decide, by decide,
    (read_cpu_stat_unparseable_line "cpu\ncpu0 1 2 3\n".toList "cpu\n".toList
      "cpu0 1 2 3\n".toList ⟨1, 2, 3, 4, 5, 6, 7, 8⟩ (by decide) (by decide)).1⟩

/-- C8 counterexample. For an empty first line, the label alone and non-numeric text
after the label, none of which yields a counter, `read_cpu_stat` returns 0. -/
theorem read_cpu_stat_succeeds_on_unparseable_line :
    (cpu_line_unparseable "\n".toList = true ∧
      (read_cpu_stat (some "\n".toList) cpu_stat_zero).1 = 0) ∧
    (cpu_line_unparseable "cpu\n".toList = true ∧
      (read_cpu_stat (some "cpu\n".toList) cpu_stat_zero).1 = 0) ∧
    (cpu_line_unparseable "cpu x y z\n".toList = true ∧
      (read_cpu_stat (some "cpu x y z\n".toList) cpu_stat_zero).1 = 0) := by
  decide

/-! ## The resident size read by `read_processes` -/

theorem strrchr_none_of_not_mem (s : List Char) (c : Char) (h : c ∉ s) : strrchr s c = none := by
  induction s with
  | nil => rfl
  | cons x xs ih =>
    have hx : x ≠ c := fun e => h (e ▸ List.mem_cons_self x xs)
    have hxs : c ∉ xs := fun m => h (List.mem_cons_of_mem x m)
    simp [strrchr, ih hxs, hx]

theorem strrchr_append (pre suf : List Char) (c : Char) (h : c ∉ suf) :
    strrchr (pre ++ c :: suf) c = some pre.length := by
  induction pre with
  | nil => simp [strrchr, strrchr_none_of_not_mem suf c h]
  | cons x xs ih => simp [strrchr, ih]

/-- The counting loop started at `field` picks the token at index `24 - field`. -/
theorem rss_scan_eq (toks : List (List Char)) (field : Nat) (hf : field ≤ 24) :
    rss_scan field toks = ((toks[24 - field]?).map atol).getD 0 := by
  induction toks generalizing field with
  | nil => simp [rss_scan]
  | cons tok rest ih =>
    unfold rss_scan
    rw [if_pos hf]
    by_cases h24 : field = 24
    · subst h24; simp
    · rw [if_neg h24, ih (field + 1) (by omega)]
      have : 24 - field = (24 - (field + 1)) + 1 := by omega
      rw [this, List.getElem?_cons_succ]

theorem stat_line_rss_pages_eq (pre suf : List Char) (hsuf : ')' ∉ suf) :
    stat_line_rss_pages (pre ++ ')' :: suf)
      = (((strtok_all (fun c => c = ' ') suf)[21]?).map atol).getD 0 := by
  unfold stat_line_rss_pages
  rw [strrchr_append pre suf ')' hsuf]
  simp only []
  rw [rss_scan_eq _ 3 (by omega)]
  simp

/-- C10 (as amended). For every process stat line, the resident memory that
`read_processes` records equals the value `atol` gives the 22nd blank-separated token
following the last closing parenthesis of the line (field 24 of the line; 0 when there
are fewer tokens), multiplied in `long` arithmetic by the page size in kilobytes. -/
theorem read_one_proc_rss_kb (fs : proc_fs) (d_name stream pre suf rest : List Char)
    (hs : fs.stat (atoi d_name) = some stream)
    (hf : fgets 1024 stream = some (pre ++ ')' :: suf, rest))
    (hsuf : ')' ∉ suf) :
    (read_one_proc fs d_name).rss_kb
      = long_wrap ((((strtok_all (fun c => c = ' ') suf)[21]?).map atol).getD 0
          * Int.tdiv fs.pagesize 1024) := by
  simp only [read_one_proc, rss_kb_of_pages, stat_rss_pages, hs, hf]
  rw [stat_line_rss_pages_eq pre suf hsuf]

theorem read_one_proc_rss_kb_witness :
    (read_one_proc sample_proc_fs "1234".toList).rss_kb = 96 := by
  have h := read_one_proc_rss_kb sample_proc_fs "1234".toList sample_stat_line
    "1234 (bash".toList
    " S 4 5 6 7 8 9 10 11 12 13 14 15 16 17 18 19 20 21 22 23 24 25 26 27 28 29 30\n".toList
    [] (by decide) (by decide) (by decide)
  rw [h]
  decide

/-- C10 counterexample. On a stat line whose field k reads k, the code records field 24
(24 pages, 96 KB with 4096-byte pages), while the 24th field following the first
closing parenthesis is field 26 (104 KB); with a closing parenthesis inside the short
name the code still records field 24 and the claimed field is yet another one. -/
theorem read_one_proc_rss_is_not_24th_after_first_paren :
    (read_one_proc sample_proc_fs "1234".toList).rss_kb = 96 ∧
    claimed_rss_kb sample_stat_line 4096 = 104 ∧
    rss_kb_of_pages (stat_line_rss_pages sample_stat_line_paren) 4096 = 96 ∧
    claimed_rss_kb sample_stat_line_paren 4096 = 100 := by
  decide

/-! ## `print_snapshot` -/

theorem take_min_ten {α : Type} (l : List α) :
    l.take (if l.length < 10 then l.length else 10) = l.take 10 := by
  by_cases h : l.length < 10
  · rw [if_pos h, List.take_length, List.take_of_length_le h.le]
  · rw [if_neg h]

/-- C9 (as amended). In one cycle of the one-shot snapshot in which the initial
processor read succeeds: if the second processor read fails nothing is printed; if it
succeeds a snapshot is printed in which the CPU figure comes from the two samples,
memory, disk and the process list take their zero default when their reader failed and
the value computed from the data read otherwise, and the network deltas are 0 when the
second network read failed and the clamped difference when both reads succeeded. -/
theorem print_snapshot_degrades (env : sys_env)
    (h1 : (read_cpu_stat env.proc_stat_1 cpu_stat_zero).1 = 0) :
    ((read_cpu_stat env.proc_stat_2 cpu_stat_zero).1 ≠ 0 → print_snapshot env = none) ∧
    ((read_cpu_stat env.proc_stat_2 cpu_stat_zero).1 = 0 →
      ∃ snap : snapshot_t, print_snapshot env = some snap ∧
        snap.cpu_pct = compute_cpu_usage (read_cpu_stat env.proc_stat_1 cpu_stat_zero).2
          (read_cpu_stat env.proc_stat_2 cpu_stat_zero).2 ∧
        (env.meminfo = none →
          snap.mem_pct = some 0 ∧ snap.mem_used_mb = 0 ∧ snap.mem_total_mb = 0) ∧
        (∀ m, env.meminfo = some m →
          snap.mem_pct = (snapshot_mem (read_meminfo (some m) (0, 0, 0)).2.1
            (read_meminfo (some m) (0, 0, 0)).2.2.2).2 ∧
          snap.mem_used_mb = (snapshot_mem (read_meminfo (some m) (0, 0, 0)).2.1
            (read_meminfo (some m) (0, 0, 0)).2.2.2).1 / 1024 ∧
          snap.mem_total_mb = (read_meminfo (some m) (0, 0, 0)).2.1 / 1024) ∧
        (env.root_statvfs = none →
          snap.disk_pct = some 0 ∧ snap.disk_used_mb = 0 ∧ snap.disk_total_mb = 0) ∧
        (∀ st, env.root_statvfs = some st →
          snap.disk_pct = usage_pct (read_disk_usage (some st) (0, 0, 0)).2.2.1
            (read_disk_usage (some st) (0, 0, 0)).2.1 ∧
          snap.disk_used_mb = (read_disk_usage (some st) (0, 0, 0)).2.2.1 / 1024 ∧
          snap.disk_total_mb = (read_disk_usage (some st) (0, 0, 0)).2.1 / 1024) ∧
        (env.net_dev_2 = none → snap.drx = 0 ∧ snap.dtx = 0) ∧
        (∀ a b, env.net_dev_1 = some a → env.net_dev_2 = some b →
          snap.drx = snapshot_net_delta (read_net_totals (some b) (0, 0)).2.1
            (read_net_totals (some a) (0, 0)).2.1 ∧
          snap.dtx = snapshot_net_delta (read_net_totals (some b) (0, 0)).2.2
            (read_net_totals (some a) (0, 0)).2.2) ∧
        (env.procfs.entries = none → snap.rows = []) ∧
        (∀ ents, env.procfs.entries = some ents →
          snap.rows = ((qsort cmp_procs (read_processes_loop env.procfs ents 0)).take 10).map
            snapshot_row)) := by
  constructor
  · intro h2
    simp only [print_snapshot, h1, ne_eq, not_true_eq_false, if_false, h2, not_false_eq_true,
      if_true]
  · intro h2
    refine ⟨_, by simp only [print_snapshot, h1, h2, ne_eq, not_true_eq_false, if_false]; rfl,
      rfl, ?_, ?_, ?_, ?_, ?_, ?_, ?_, ?_⟩
    · intro hm
      simp [hm, read_meminfo, snapshot_mem, usage_pct, ull_sub]
    · intro m hm
      rw [← hm]
      exact ⟨rfl, rfl, rfl⟩
    · intro hd
      simp [hd, read_disk_usage, usage_pct]
    · intro st hd
      rw [← hd]
      exact ⟨rfl, rfl, rfl⟩
    · intro hn
      simp [hn, read_net_totals, snapshot_net_delta]
    · intro a b ha hb
      rw [← ha, ← hb]
      exact ⟨rfl, rfl⟩
    · intro hp
      simp [read_processes, hp, qsort]
    · intro ents hp
      simp only [read_processes, hp, take_min_ten]

theorem print_snapshot_degrades_witness :
    (read_cpu_stat sample_env_only_cpu.proc_stat_1 cpu_stat_zero).1 = 0 ∧
    (read_cpu_stat sample_env_only_cpu.proc_stat_2 cpu_stat_zero).1 = 0 ∧
    ∃ snap : snapshot_t, print_snapshot sample_env_only_cpu = some snap ∧
      snap.cpu_pct = some 20 ∧ snap.mem_pct = some 0 ∧ snap.disk_pct = some 0 ∧
      snap.drx = 0 ∧ snap.dtx = 0 ∧ snap.rows = [] := by
  have h1 : (read_cpu_stat sample_env_only_cpu.proc_stat_1 cpu_stat_zero).1 = 0 := by decide
  have h2 : (read_cpu_stat sample_env_only_cpu.proc_stat_2 cpu_stat_zero).1 = 0 := by decide
  obtain ⟨snap, hs, hcpu, hmem, _, hdisk, _, hnet, _, hrows, _⟩ :=
    (print_snapshot_degrades sample_env_only_cpu h1).2 h2
  refine ⟨h1, h2, snap, hs, ?_, (hmem rfl).1, (hdisk rfl).1, (hnet rfl).1, (hnet rfl).2,
    hrows rfl⟩
  rw [hcpu]
  have e1 : (read_cpu_stat sample_env_only_cpu.proc_stat_1 cpu_stat_zero).2
      = ⟨0, 0, 0, 0, 0, 0, 0, 0⟩ := by decide
  have e2 : (read_cpu_stat sample_env_only_cpu.proc_stat_2 cpu_stat_zero).2
      = ⟨15, 0, 5, 70, 10, 0, 0, 0⟩ := by decide
  rw [e1, e2, compute_cpu_usage_of_deltas _ _ 100 20 (by decide) (by decide),
    if_neg (by norm_num),
    pct_expr_small 20 100 20 (by norm_num) (by norm_num) (by norm_num) (by norm_num)
      (by norm_num)]
  norm_num

set_option maxRecDepth 100000 in
/-- C9 counterexample. The first read of `/proc/stat` succeeds, the second cannot open
it, every other source is readable: `print_snapshot` returns without printing. And
where only the first read of `/proc/net/dev` fails, the deltas printed are the whole
totals of the second read (700 and 900), not the zero default. -/
theorem print_snapshot_aborts_when_second_cpu_read_fails :
    ((read_cpu_stat sample_env_second_cpu_read_fails.proc_stat_1 cpu_stat_zero).1 = 0 ∧
      (read_cpu_stat sample_env_second_cpu_read_fails.proc_stat_2 cpu_stat_zero).1 = -1 ∧
      print_snapshot sample_env_second_cpu_read_fails = none) ∧
    ((read_cpu_stat sample_env_first_net_read_fails.proc_stat_1 cpu_stat_zero).1 = 0 ∧
      (read_net_totals sample_env_first_net_read_fails.net_dev_1 (0, 0)).1 = -1 ∧
      (print_snapshot sample_env_first_net_read_fails).map (fun snap => (snap.drx, snap.dtx))
        = some (700, 900)) := by
  refine ⟨⟨by decide, by decide, ?_⟩, ⟨by decide, by decide, by decide⟩⟩
  have h1 : (read_cpu_stat sample_env_second_cpu_read_fails.proc_stat_1 cpu_stat_zero).1 = 0 := by
    decide
  have h2 : (read_cpu_stat sample_env_second_cpu_read_fails.proc_stat_2 cpu_stat_zero).1 ≠ 0 := by
    decide
  simp only [print_snapshot, h1, ne_eq, not_true_eq_false, if_false, h2, not_false_eq_true,
    if_true]

/-! ## `read_net_totals` -/

theorem digit_char_spec (d : Nat) (h : d < 10) :
    isdigit (digit_char d) = true ∧ digit_val (digit_char d) = d := by
  interval_cases d <;> decide

theorem digits_val_append (xs : List Char) (c : Char) :
    digits_val (xs ++ [c]) = digits_val xs * 10 + digit_val c := by
  simp [digits_val, List.foldl_append]

theorem decimal_fuel_spec (fuel n : Nat) (h : n < fuel) :
    (∀ c ∈ decimal_fuel fuel n, isdigit c = true) ∧ decimal_fuel fuel n ≠ [] ∧
    digits_val (decimal_fuel fuel n) = n := by
  induction fuel generalizing n with
  | zero => omega
  | succ f ih =>
    unfold decimal_fuel
    by_cases h10 : n < 10
    · rw [if_pos h10]
      have hd := digit_char_spec n h10
      refine ⟨?_, by simp, ?_⟩
      · intro c hc
        rw [List.mem_singleton] at hc
        rw [hc]; exact hd.1
      · simp [digits_val, hd.2]
    · rw [if_neg h10]
      obtain ⟨i1, _, i3⟩ := ih (n / 10) (by omega)
      have hd := digit_char_spec (n % 10) (by omega)
      refine ⟨?_, by simp, ?_⟩
      · intro c hc
        rcases List.mem_append.mp hc with hc | hc
        · exact i1 c hc
        · rw [List.mem_singleton] at hc
          rw [hc]; exact hd.1
      · rw [digits_val_append, i3, hd.2]
        omega

theorem decimal_spec (n : Nat) :
    (∀ c ∈ decimal n, isdigit c = true) ∧ decimal n ≠ [] ∧ digits_val (decimal n) = n :=
  decimal_fuel_spec (n + 1) n (by omega)

theorem isdigit_not_isspace (c : Char) (hd : isdigit c = true) : isspace c = false := by
  cases hs : isspace c with
  | false => rfl
  | true =>
    simp only [isspace, Bool.or_eq_true, decide_eq_true_eq] at hs
    rcases hs with ((((h | h) | h) | h) | h) | h <;> subst h <;> exact absurd hd (by decide)

theorem isdigit_not_blank (c : Char) (hd : isdigit c = true) : iface_blank c = false := by
  cases hs : iface_blank c with
  | false => rfl
  | true =>
    simp only [iface_blank, Bool.or_eq_true, decide_eq_true_eq] at hs
    rcases hs with (h | h) | h <;> subst h <;> exact absurd hd (by decide)

theorem isdigit_ne_sign (c : Char) (hd : isdigit c = true) : c ≠ '-' ∧ c ≠ '+' := by
  constructor <;> rintro rfl <;> exact absurd hd (by decide)

theorem isdigit_ne_nul (c : Char) (hd : isdigit c = true) : c ≠ NUL := by
  rintro rfl; exact absurd hd (by decide)

theorem isdigit_ne_newline (c : Char) (hd : isdigit c = true) : c ≠ '\n' := by
  rintro rfl; exact absurd hd (by decide)

/-- `strtoull` reads back a decimal numeral of an `unsigned long long` value. -/
theorem strtoull_decimal (v : Nat) (hv : v < 2 ^ 64) : strtoull (decimal v) = v := by
  obtain ⟨hall, hne, hval⟩ := decimal_spec v
  cases hs : decimal v with
  | nil => exact absurd hs hne
  | cons d ds =>
    rw [hs] at hall hval
    have hd : isdigit d = true := hall d (List.mem_cons_self d ds)
    have hsp : isspace d = false := isdigit_not_isspace d hd
    have hsign := isdigit_ne_sign d hd
    have h1 : (d :: ds).dropWhile isspace = d :: ds := by
      simp [List.dropWhile, hsp]
    have h2 : has_minus (d :: ds) = false := by
      unfold has_minus
      split
      · rename_i heq
        exact absurd (List.cons.inj heq).1 hsign.1
      · rfl
    have h3 : skip_sign (d :: ds) = d :: ds := by
      unfold skip_sign
      split
      · rename_i heq
        exact absurd (List.cons.inj heq).1 hsign.1
      · rename_i heq
        exact absurd (List.cons.inj heq).1 hsign.2
      · rfl
    have h4 : (d :: ds).takeWhile isdigit = d :: ds :=
      List.takeWhile_eq_self_iff.mpr hall
    unfold strtoull
    rw [h1, h2, h3, h4]
    unfold ull_of_digits
    rw [hval, if_neg (by omega)]
    simp

/-! ### Tokens of a rendered field list -/

theorem strtok_aux_blanks_nil (k : Nat) (s : List Char) :
    strtok_aux iface_blank [] (List.replicate k ' ' ++ s) = strtok_aux iface_blank [] s := by
  induction k with
  | zero => rfl
  | succ k ih =>
    rw [List.replicate_succ, List.cons_append, strtok_aux]
    have : iface_blank ' ' = true := by decide
    rw [if_pos this, if_pos rfl, ih]

theorem strtok_aux_blanks_cons (k : Nat) (cur s : List Char) (hcur : cur ≠ []) :
    strtok_aux iface_blank cur (List.replicate (k + 1) ' ' ++ s)
      = cur.reverse :: strtok_aux iface_blank [] s := by
  rw [List.replicate_succ, List.cons_append, strtok_aux]
  have : iface_blank ' ' = true := by decide
  rw [if_pos this, if_neg hcur, strtok_aux_blanks_nil]

theorem strtok_aux_word (w cur s : List Char) (hw : ∀ c ∈ w, iface_blank c = false) :
    strtok_aux iface_blank cur (w ++ s) = strtok_aux iface_blank (w.reverse ++ cur) s := by
  induction w generalizing cur with
  | nil => rfl
  | cons c cs ih =>
    have hc : iface_blank c = false := hw c (List.mem_cons_self c cs)
    rw [List.cons_append, strtok_aux, if_neg (by simp [hc]),
      ih (c :: cur) (fun x hx => hw x (List.mem_cons_of_mem c hx))]
    simp

theorem decimal_no_blank (v : Nat) : ∀ c ∈ decimal v, iface_blank c = false :=
  fun c hc => isdigit_not_blank c ((decimal_spec v).1 c hc)

theorem strtok_aux_cols_tail (cs : List (Nat × Nat)) (cur : List Char) (hcur : cur ≠ []) :
    strtok_aux iface_blank cur (render_cols_tail cs ++ ['\n'])
      = cur.reverse :: cs.map (fun c => decimal c.2) := by
  induction cs generalizing cur with
  | nil =>
    have : iface_blank '\n' = true := by decide
    simp [render_cols_tail, strtok_aux, this, hcur]
  | cons c cs ih =>
    rw [render_cols_tail, List.append_assoc, List.append_assoc,
      strtok_aux_blanks_cons c.1 cur _ hcur, strtok_aux_word _ _ _ (decimal_no_blank c.2),
      ih _ (by simp [(decimal_spec c.2).2.1])]
    simp

/-- The tokens `strtok` finds after the colon are the numerals of the fields. -/
theorem strtok_all_render_cols (cs : List (Nat × Nat)) :
    strtok_all iface_blank (render_cols cs ++ ['\n']) = cs.map (fun c => decimal c.2) := by
  unfold strtok_all
  cases cs with
  | nil =>
    have : iface_blank '\n' = true := by decide
    simp [render_cols, strtok_aux, this]
  | cons c cs =>
    rw [render_cols, List.append_assoc, List.append_assoc, strtok_aux_blanks_nil,
      strtok_aux_word _ _ _ (decimal_no_blank c.2),
      strtok_aux_cols_tail cs _ (by simp [(decimal_spec c.2).2.1])]
    simp

/-! ### One interface line -/

theorem strchr_append (pre rest : List Char) (c : Char) (h : c ∉ pre) :
    strchr (pre ++ c :: rest) c = some pre.length := by
  induction pre with
  | nil => simp [strchr]
  | cons x xs ih =>
    have hx : x ≠ c := fun e => h (e ▸ List.mem_cons_self x xs)
    have hxs : c ∉ xs := fun m => h (List.mem_cons_of_mem x m)
    simp [strchr, hx, ih hxs]

theorem extract_iface_blanks (room k : Nat) (s : List Char) :
    extract_iface room (List.replicate k ' ' ++ s) = extract_iface room s := by
  induction k with
  | zero => rfl
  | succ k ih =>
    cases room with
    | zero => simp [extract_iface]
    | succ r =>
      rw [List.replicate_succ, List.cons_append, extract_iface]
      have : iface_blank ' ' = true := by decide
      rw [if_pos this, ih]

theorem extract_iface_name (room : Nat) (name : List Char)
    (h : ∀ c ∈ name, iface_blank c = false) : extract_iface room name = name.take room := by
  induction name generalizing room with
  | nil => cases room <;> simp [extract_iface]
  | cons c cs ih =>
    cases room with
    | zero => simp [extract_iface]
    | succ r =>
      have hc : iface_blank c = false := h c (List.mem_cons_self c cs)
      rw [extract_iface, if_neg (by simp [hc]),
        ih r (fun x hx => h x (List.mem_cons_of_mem c hx))]
      simp

theorem take_63_eq_lo_iff (name : List Char) : name.take 63 = lo_name ↔ name = lo_name := by
  constructor
  · intro h
    have hlen : (name.take 63).length = 2 := by rw [h]; rfl
    rw [List.length_take] at hlen
    have : name.length ≤ 63 := by omega
    rw [List.take_of_length_le this] at h
    exact h
  · intro h
    rw [h]; rfl

theorem name_chars_not_blank (name : List Char)
    (h : ∀ c ∈ name, c ≠ ' ' ∧ c ≠ '\t' ∧ c ≠ '\n' ∧ c ≠ ':' ∧ c ≠ NUL) :
    ∀ c ∈ name, iface_blank c = false := by
  intro c hc
  obtain ⟨h1, h2, h3, _, _⟩ := h c hc
  simp [iface_blank, h1, h2, h3]

theorem fields_of_render_cols (cs : List (Nat × Nat)) (hv : ∀ c ∈ cs, c.2 < 2 ^ 64) :
    ((strtok_all iface_blank (render_cols cs ++ ['\n'])).take 16).map strtoull
      = (cs.map Prod.snd).take 16 := by
  rw [strtok_all_render_cols, ← List.map_take, ← List.map_take, List.map_map]
  apply List.map_congr_left
  intro c hc
  exact strtoull_decimal c.2 (hv c (List.mem_of_mem_take hc))

theorem getD_take_16 (l : List Nat) (i : Nat) (hi : i < 16) :
    (l.take 16).getD i 0 = l.getD i 0 := by
  simp [List.getD_eq_getElem?_getD, List.getElem?_take, hi]

/-- What one well-formed interface line does to the running sums. -/
theorem net_line_render (acc : Nat × Nat) (l : net_dev_line) (hok : net_dev_line_ok l) :
    net_line acc (render_line l) =
      if l.name ≠ lo_name then (ull_add acc.1 (line_rx l), ull_add acc.2 (line_tx l))
      else acc := by
  obtain ⟨hname, hcols, _⟩ := hok
  have hcolon : ':' ∉ List.replicate l.lead ' ' ++ l.name := by
    intro hm
    rcases List.mem_append.mp hm with hm | hm
    · exact absurd (List.eq_of_mem_replicate hm) (by decide)
    · exact (hname ':' hm).2.2.2.1 rfl
  have hline : render_line l
      = (List.replicate l.lead ' ' ++ l.name) ++ ':' :: (render_cols l.cols ++ ['\n']) := rfl
  have hidx := strchr_append (List.replicate l.lead ' ' ++ l.name)
    (render_cols l.cols ++ ['\n']) ':' hcolon
  have htake : (render_line l).take (List.replicate l.lead ' ' ++ l.name).length
      = List.replicate l.lead ' ' ++ l.name := by
    rw [hline, List.take_left]
  have hdrop : (render_line l).drop ((List.replicate l.lead ' ' ++ l.name).length + 1)
      = render_cols l.cols ++ ['\n'] := by
    rw [hline, ← List.drop_drop, List.drop_left]
    rfl
  have hiface : extract_iface 63 (List.replicate l.lead ' ' ++ l.name) = l.name.take 63 := by
    rw [extract_iface_blanks, extract_iface_name 63 l.name (name_chars_not_blank l.name hname)]
  have hlen : ((l.cols.map Prod.snd).take 16).length = min 16 l.cols.length := by
    simp
  rw [← hline] at hidx
  unfold net_line
  rw [hidx]
  simp only [htake, hdrop, hiface, fields_of_render_cols l.cols hcols, hlen,
    getD_take_16 _ 0 (by omega), getD_take_16 _ 8 (by omega)]
  have h9 : (9 ≤ min 16 l.cols.length) ↔ (9 ≤ l.cols.length) := by omega
  by_cases hlo : l.name = lo_name
  · have : l.name.take 63 = lo_name := (take_63_eq_lo_iff l.name).mpr hlo
    rw [if_neg (not_not.mpr this), if_neg (not_not.mpr hlo)]
  · have : l.name.take 63 ≠ lo_name := fun h => hlo ((take_63_eq_lo_iff l.name).mp h)
    simp only [ne_eq, this, not_false_eq_true, if_true, hlo, line_rx, line_tx, h9]

/-! ### Reading the listing line by line -/

theorem fgets_take_line (n : Nat) (t rest : List Char) (hnl : '\n' ∉ t)
    (hlen : t.length + 1 ≤ n) : fgets_take n (t ++ '\n' :: rest) = (t ++ ['\n'], rest) := by
  induction t generalizing n with
  | nil =>
    cases n with
    | zero => omega
    | succ m => simp [fgets_take]
  | cons c cs ih =>
    cases n with
    | zero => omega
    | succ m =>
      have hc : c ≠ '\n' := fun e => hnl (e ▸ List.mem_cons_self c cs)
      have hcs : '\n' ∉ cs := fun hm => hnl (List.mem_cons_of_mem c hm)
      have hl : cs.length + 1 ≤ m := by
        simp only [List.length_cons] at hlen; omega
      rw [List.cons_append, fgets_take, if_neg hc, ih m hcs hl]
      rfl

theorem c_str_eq_self (s : List Char) (h : ∀ c ∈ s, c ≠ NUL) : c_str s = s := by
  unfold c_str
  apply List.takeWhile_eq_self_iff.mpr
  intro c hc
  simp [h c hc]

theorem fgets_of_ne_nil (size : Nat) (stream : List Char) (h : stream ≠ []) :
    fgets size stream
      = some (c_str (fgets_take (size - 1) stream).1, (fgets_take (size - 1) stream).2) := by
  cases stream with
  | nil => exact absurd rfl h
  | cons x xs => rfl

theorem fgets_text_line (h rest : List Char) (hh : is_text_line h) :
    fgets 512 (h ++ rest) = some (c_str h, rest) := by
  obtain ⟨t, ht, hnl, hlen⟩ := hh
  have hlen2 : t.length + 1 ≤ 512 - 1 := by
    rw [ht] at hlen
    simp only [List.length_append, List.length_singleton] at hlen
    omega
  have hstream : h ++ rest = t ++ '\n' :: rest := by rw [ht]; simp
  rw [hstream, fgets_of_ne_nil 512 _ (by simp),
    fgets_take_line (512 - 1) t rest hnl hlen2, ht]

theorem fgets_loop_text_lines (lines : List (List Char)) (fuel : Nat)
    (hl : ∀ h ∈ lines, is_text_line h) (hfuel : lines.length ≤ fuel) :
    fgets_loop 512 fuel lines.flatten = lines.map c_str := by
  induction lines generalizing fuel with
  | nil =>
    cases fuel with
    | zero => rfl
    | succ f => simp [fgets_loop, fgets]
  | cons h hs ih =>
    cases fuel with
    | zero => simp at hfuel
    | succ f =>
      have hf : hs.length ≤ f := by
        simp only [List.length_cons] at hfuel; omega
      rw [List.flatten_cons, fgets_loop,
        fgets_text_line h hs.flatten (hl h (List.mem_cons_self h hs))]
      simp only []
      rw [ih f (fun x hx => hl x (List.mem_cons_of_mem h hx)) hf]
      rfl

theorem length_le_flatten_length (lines : List (List Char))
    (hl : ∀ h ∈ lines, is_text_line h) : lines.length ≤ lines.flatten.length := by
  induction lines with
  | nil => simp
  | cons h hs ih =>
    obtain ⟨t, ht, _, _⟩ := hl h (List.mem_cons_self h hs)
    have h1 : 1 ≤ h.length := by rw [ht]; simp
    have := ih (fun x hx => hl x (List.mem_cons_of_mem h hx))
    simp only [List.flatten_cons, List.length_append, List.length_cons]
    omega

theorem fgets_all_text_lines (lines : List (List Char)) (hl : ∀ h ∈ lines, is_text_line h) :
    fgets_all 512 lines.flatten = lines.map c_str :=
  fgets_loop_text_lines lines _ hl (length_le_flatten_length lines hl)

theorem render_cols_tail_chars (cs : List (Nat × Nat)) :
    ∀ c ∈ render_cols_tail cs, c = ' ' ∨ isdigit c = true := by
  induction cs with
  | nil => simp [render_cols_tail]
  | cons x xs ih =>
    intro c hc
    rw [render_cols_tail] at hc
    rcases List.mem_append.mp hc with hc | hc
    · rcases List.mem_append.mp hc with hc | hc
      · exact Or.inl (List.eq_of_mem_replicate hc)
      · exact Or.inr ((decimal_spec x.2).1 c hc)
    · exact ih c hc

theorem render_cols_chars (cs : List (Nat × Nat)) :
    ∀ c ∈ render_cols cs, c = ' ' ∨ isdigit c = true := by
  cases cs with
  | nil => simp [render_cols]
  | cons x xs =>
    intro c hc
    rw [render_cols] at hc
    rcases List.mem_append.mp hc with hc | hc
    · rcases List.mem_append.mp hc with hc | hc
      · exact Or.inl (List.eq_of_mem_replicate hc)
      · exact Or.inr ((decimal_spec x.2).1 c hc)
    · exact render_cols_tail_chars xs c hc

/-- The characters of a well-formed line before its final newline are neither a
newline nor NUL. -/
theorem render_line_body_chars (l : net_dev_line) (hok : net_dev_line_ok l) :
    ∀ c ∈ List.replicate l.lead ' ' ++ l.name ++ ':' :: render_cols l.cols,
      c ≠ '\n' ∧ c ≠ NUL := by
  intro c hc
  rcases List.mem_append.mp hc with hc | hc
  · rcases List.mem_append.mp hc with hc | hc
    · rw [List.eq_of_mem_replicate hc]; decide
    · exact ⟨(hok.1 c hc).2.2.1, (hok.1 c hc).2.2.2.2⟩
  · rcases List.mem_cons.mp hc with hc | hc
    · rw [hc]; decide
    · rcases render_cols_chars l.cols c hc with h | h
      · rw [h]; decide
      · exact ⟨isdigit_ne_newline c h, isdigit_ne_nul c h⟩

theorem render_line_eq (l : net_dev_line) :
    render_line l = (List.replicate l.lead ' ' ++ l.name ++ ':' :: render_cols l.cols) ++ ['\n'] := by
  simp [render_line]

theorem render_line_is_text_line (l : net_dev_line) (hok : net_dev_line_ok l) :
    is_text_line (render_line l) :=
  ⟨_, render_line_eq l, fun hm => (render_line_body_chars l hok _ hm).1 rfl, hok.2.2⟩

theorem c_str_render_line (l : net_dev_line) (hok : net_dev_line_ok l) :
    c_str (render_line l) = render_line l := by
  apply c_str_eq_self
  intro c hc
  rw [render_line_eq] at hc
  rcases List.mem_append.mp hc with hc | hc
  · exact (render_line_body_chars l hok c hc).2
  · rw [List.mem_singleton] at hc
    rw [hc]; decide

/-- The buffers the loop of `read_net_totals` sees after the two header lines are the
interface lines of the listing. -/
theorem fgets_all_listing (h1 h2 : List Char) (ls : List net_dev_line)
    (hh1 : is_text_line h1) (hh2 : is_text_line h2) (hls : ∀ l ∈ ls, net_dev_line_ok l) :
    (fgets_all 512 (render_listing h1 h2 ls)).drop 2 = ls.map render_line := by
  have hflat : render_listing h1 h2 ls = (h1 :: h2 :: ls.map render_line).flatten := by
    simp [render_listing]
  have hall : ∀ h ∈ h1 :: h2 :: ls.map render_line, is_text_line h := by
    intro h hm
    rcases List.mem_cons.mp hm with rfl | hm
    · exact hh1
    · rcases List.mem_cons.mp hm with rfl | hm
      · exact hh2
      · obtain ⟨l, hl, rfl⟩ := List.mem_map.mp hm
        exact render_line_is_text_line l (hls l hl)
  rw [hflat, fgets_all_text_lines _ hall]
  simp only [List.map_cons, List.drop_succ_cons, List.drop_zero, List.map_map]
  apply List.map_congr_left
  intro l hl
  exact c_str_render_line l (hls l hl)

/-! ### The sums -/

theorem spec_rx_cons (l : net_dev_line) (ls : List net_dev_line) :
    spec_rx (l :: ls) = (if l.name ≠ lo_name then line_rx l else 0) + spec_rx ls := by
  unfold spec_rx
  by_cases h : l.name = lo_name
  · simp [List.filter_cons, h]
  · simp [List.filter_cons, h]

theorem spec_tx_cons (l : net_dev_line) (ls : List net_dev_line) :
    spec_tx (l :: ls) = (if l.name ≠ lo_name then line_tx l else 0) + spec_tx ls := by
  unfold spec_tx
  by_cases h : l.name = lo_name
  · simp [List.filter_cons, h]
  · simp [List.filter_cons, h]

theorem foldl_net_line_listing (ls : List net_dev_line) (hls : ∀ l ∈ ls, net_dev_line_ok l)
    (A B : Nat) :
    (ls.map render_line).foldl net_line (A % 2 ^ 64, B % 2 ^ 64)
      = ((A + spec_rx ls) % 2 ^ 64, (B + spec_tx ls) % 2 ^ 64) := by
  induction ls generalizing A B with
  | nil => simp [spec_rx, spec_tx]
  | cons l ls ih =>
    have hok := hls l (List.mem_cons_self l ls)
    have hrest : ∀ x ∈ ls, net_dev_line_ok x := fun x hx => hls x (List.mem_cons_of_mem l hx)
    rw [List.map_cons, List.foldl_cons, net_line_render _ l hok, spec_rx_cons, spec_tx_cons]
    by_cases hlo : l.name = lo_name
    · rw [if_neg (not_not.mpr hlo), if_neg (not_not.mpr hlo), if_neg (not_not.mpr hlo),
        ih hrest A B]
      simp
    · rw [if_pos hlo, if_pos hlo, if_pos hlo]
      have e1 : ull_add (A % 2 ^ 64, B % 2 ^ 64).1 (line_rx l) = (A + line_rx l) % 2 ^ 64 := by
        unfold ull_add; simp only []; omega
      have e2 : ull_add (A % 2 ^ 64, B % 2 ^ 64).2 (line_tx l) = (B + line_tx l) % 2 ^ 64 := by
        unfold ull_add; simp only []; omega
      rw [e1, e2, ih hrest (A + line_rx l) (B + line_tx l), Nat.add_assoc, Nat.add_assoc]

/-- C6 (as amended). For every network-device listing (two header lines, then one
`<iface>: <fields>` line per interface), `read_net_totals` succeeds and returns rx equal
to the sum, modulo 2^64, of the first numeric field and tx equal to the sum, modulo
2^64, of the ninth numeric field over exactly the lines whose interface name is not
`lo`, where a line with fewer than nine numeric fields contributes 0 to both sums; where
the sums are below 2^64 rx and tx are the sums themselves. -/
theorem read_net_totals_listing (h1 h2 : List Char) (ls : List net_dev_line)
    (init : Nat × Nat)
    (hh1 : is_text_line h1) (hh2 : is_text_line h2) (hls : ∀ l ∈ ls, net_dev_line_ok l) :
    read_net_totals (some (render_listing h1 h2 ls)) init
      = (0, (spec_rx ls % 2 ^ 64, spec_tx ls % 2 ^ 64)) ∧
    (spec_rx ls < 2 ^ 64 → spec_tx ls < 2 ^ 64 →
      read_net_totals (some (render_listing h1 h2 ls)) init = (0, (spec_rx ls, spec_tx ls))) := by
  have hmain : read_net_totals (some (render_listing h1 h2 ls)) init
      = (0, (spec_rx ls % 2 ^ 64, spec_tx ls % 2 ^ 64)) := by
    unfold read_net_totals
    simp only []
    rw [fgets_all_listing h1 h2 ls hh1 hh2 hls]
    have h := foldl_net_line_listing ls hls 0 0
    simp only [Nat.zero_mod, Nat.zero_add] at h
    rw [h]
  refine ⟨hmain, fun hr ht => ?_⟩
  rw [hmain, Nat.mod_eq_of_lt hr, Nat.mod_eq_of_lt ht]

theorem sample_header_1_is_text_line : is_text_line sample_header_1 :=
  ⟨sample_header_1.dropLast, by decide, by decide, by decide⟩

theorem sample_header_2_is_text_line : is_text_line sample_header_2 :=
  ⟨sample_header_2.dropLast, by decide, by decide, by decide⟩

set_option maxRecDepth 100000 in
theorem sample_listing_ok : ∀ l ∈ sample_listing, net_dev_line_ok l := by
  intro l hl
  simp only [sample_listing, List.mem_cons, List.mem_singleton, List.not_mem_nil, or_false] at hl
  rcases hl with rfl | rfl
  · exact ⟨by decide, by decide, by decide⟩
  · exact ⟨by decide, by decide, by decide⟩

set_option maxRecDepth 100000 in
theorem sample_listing_wrap_ok : ∀ l ∈ sample_listing_wrap, net_dev_line_ok l := by
  intro l hl
  simp only [sample_listing_wrap, List.mem_cons, List.mem_singleton, List.not_mem_nil,
    or_false] at hl
  rcases hl with rfl | rfl
  · exact ⟨by decide, by decide, by decide⟩
  · exact ⟨by decide, by decide, by decide⟩

set_option maxRecDepth 100000 in
theorem read_net_totals_listing_witness :
    read_net_totals (some (render_listing sample_header_1 sample_header_2 sample_listing)) (0, 0)
      = (0, (200, 300)) :=
  (read_net_totals_listing sample_header_1 sample_header_2 sample_listing (0, 0)
    sample_header_1_is_text_line sample_header_2_is_text_line sample_listing_ok).2
    (by decide) (by decide)

set_option maxRecDepth 100000 in
/-- C6 counterexample. Two interfaces other than `lo`, each with 2^63 received bytes:
the sum of the first fields is 2^64, and `read_net_totals` returns rx = 0. -/
theorem read_net_totals_wraps_sum :
    is_text_line sample_header_1 ∧ is_text_line sample_header_2 ∧
    (∀ l ∈ sample_listing_wrap, net_dev_line_ok l) ∧
    spec_rx sample_listing_wrap = 18446744073709551616 ∧
    read_net_totals
      (some (render_listing sample_header_1 sample_header_2 sample_listing_wrap)) (0, 0)
      = (0, (0, 800)) := by
  refine ⟨sample_header_1_is_text_line, sample_header_2_is_text_line, sample_listing_wrap_ok,
    by decide, by decide⟩

set_option maxRecDepth 100000 in
/-- A line longer than the buffer is read in two pieces: the first holds the name and
no field, the second has no colon, and the line contributes nothing. -/
theorem read_net_totals_splits_long_line :
    sample_listing_long_line.map (fun l => (render_line l).length) = [545] ∧
    spec_rx sample_listing_long_line = 5 ∧ spec_tx sample_listing_long_line = 7 ∧
    read_net_totals
      (some (render_listing sample_header_1 sample_header_2 sample_listing_long_line)) (0, 0)
      = (0, (0, 0)) := by
  decide

end SimpleSysmon
